import Mathlib

/-!
Verification development for the OSM map processor core.

The definitions below are a shallow embedding of the parsing and
layer-extraction engine of the repository:

  * `app/osm_parser.py` — structural parser and geometry assembly
    (`OSMParser._parse_way`, `OSMParser._parse_relation`,
    `OSMParser._to_geodataframes`);
  * `app/layers.py` — the layer classifier (`extract_layers`);
  * `app/io.py` — source cache and input dispatch (`_get_cache_key`,
    `load_osm_cached`, `load_osm`).

Python dictionaries are embedded as insertion-ordered association lists
(`dinsert` mirrors `d[k] = v`), pandas GeoDataFrames as a column list
plus rows of keyed cells, and the external shapely polygon constructor
and validity predicate as an abstract `GeomLib` parameter.
-/

set_option autoImplicit false

namespace OSMMap

/-! ## Association lists with Python dict semantics -/

/-- Lookup of the value stored under a key, first match wins. -/
def alookup {κ α : Type} [BEq κ] (k : κ) : List (κ × α) → Option α
  | [] => none
  | (k', v) :: rest => if k' == k then some v else alookup k rest

/-- Embedding of the Python statement `d[k] = v`: replace the value in
place when the key is present, otherwise append the pair at the end
(insertion order is preserved, as for a Python dict). -/
def dinsert {κ α : Type} [BEq κ] (k : κ) (v : α) : List (κ × α) → List (κ × α)
  | [] => [(k, v)]
  | (k', v') :: rest => if k' == k then (k', v) :: rest else (k', v') :: dinsert k v rest

/-! ## Structural parser model (`app/osm_parser.py`)

A coordinate is the `(lon, lat)` pair stored in `self.nodes`; the claims
never compute with coordinate values, so integers stand in for floats.
Tag keys and values are `Option String` because `Element.get` returns
`None` for an absent XML attribute and `_parse_way` / `_parse_relation`
store the result without checking it. -/

abbrev Coord := Int × Int

abbrev NodeTable := List (Int × Coord)

abbrev TagMap := List (Option String × Option String)

/-- Raw way record, the value stored in `self.ways[way_id]` (the `id`
field of the Python dict is carried as the key of the table entry). -/
structure WayData where
  nodes : List Int
  tags : TagMap
deriving DecidableEq

/-- One member entry of a relation: `type` and `role` come from
`child.get("type")` and `child.get("role", "")`, so the type may be
absent while the role defaults to the empty string. -/
structure RelMember where
  mtype : Option String
  ref : Int
  role : String
deriving DecidableEq

/-- Raw relation record, the value stored in `self.relations[rel_id]`. -/
structure RelData where
  members : List RelMember
  tags : TagMap
deriving DecidableEq

/-- Child elements of a `way` or `relation` element as seen by the
parser: `nd` carries a node reference, `tag` carries the two optional
attributes `k` and `v`, `member` carries `type`, `ref` and the optional
`role`, and `other` stands for any unrecognized element. -/
inductive XChild
  | nd (ref : Int)
  | tag (k v : Option String)
  | member (mtype : Option String) (ref : Int) (role : Option String)
  | other
deriving DecidableEq

/-- One iteration of the child loop of `OSMParser._parse_way`: `nd`
children append their reference, `tag` children store `(k, v)` into the
tag dict unconditionally, everything else is ignored. -/
def wayStep (wd : WayData) (c : XChild) : WayData :=
  match c with
  | XChild.nd ref => { wd with nodes := wd.nodes ++ [ref] }
  | XChild.tag k v => { wd with tags := dinsert k v wd.tags }
  | _ => wd

/-- Embedding of the child loop of `OSMParser._parse_way`. -/
def parseWayChildren (cs : List XChild) : WayData :=
  cs.foldl wayStep ⟨[], []⟩

/-- One iteration of the child loop of `OSMParser._parse_relation`;
the role attribute defaults to the empty string. -/
def relStep (rd : RelData) (c : XChild) : RelData :=
  match c with
  | XChild.member t ref role => { rd with members := rd.members ++ [⟨t, ref, role.getD ""⟩] }
  | XChild.tag k v => { rd with tags := dinsert k v rd.tags }
  | _ => rd

/-- Embedding of the child loop of `OSMParser._parse_relation`. -/
def parseRelationChildren (cs : List XChild) : RelData :=
  cs.foldl relStep ⟨[], []⟩

/-! ## Geometry assembly (`OSMParser._to_geodataframes`)

The shapely library is external to the repository, so the polygon
constructor and the validity predicate are abstract parameters: a
`none` result of `mkPolygon` models a raised exception, which the
source catches, logs, and turns into a skipped feature. -/

/-- Abstract interface to the shapely polygon operations used by the
parser. -/
structure GeomLib (P : Type) where
  mkPolygon : List Coord → Option P
  isValid : P → Bool

/-- Attribute value of a derived feature: the integer taken from
`way_id` or `rel_id`, a tag value (possibly `None`), a line geometry,
or a polygon geometry. -/
inductive FVal (P : Type)
  | intv (n : Int)
  | tagv (s : Option String)
  | linev (cs : List Coord)
  | polyv (p : P)
deriving DecidableEq

/-- Derived feature record: the dict
the feature dict of the source: fixed id and geometry entries
followed by the splatted tag map. -/
abbrev Feature (P : Type) := List (Option String × FVal P)

/-- Embedding of the feature dict literal: the two fixed entries
(id, then geometry) come first and the tag entries are
merged on top of them, so a tag whose key is literally `id` or
`geometry` overwrites the fixed entry. -/
def featureData {P : Type} (oid : Int) (geom : FVal P) (tags : TagMap) : Feature P :=
  tags.foldl (fun acc kv => dinsert kv.1 (FVal.tagv kv.2) acc)
    [(some "id", FVal.intv oid), (some "geometry", geom)]

/-- Coordinate resolution: walk the node references of the way and
keep, in order, the coordinates of those present in the node table. -/
def resolve (nt : NodeTable) (refs : List Int) : List Coord :=
  refs.filterMap (fun n => alookup n nt)

/-- Line construction for one way (the body of the `lines_data` loop):
skip the way when it has fewer than two raw node references or fewer
than two resolvable coordinates, otherwise build one line feature. -/
def mkLineFeature {P : Type} (nt : NodeTable) (w : Int × WayData) : Option (Feature P) :=
  if w.2.nodes.length < 2 then none
  else if (resolve nt w.2.nodes).length < 2 then none
  else some (featureData w.1 (FVal.linev (resolve nt w.2.nodes)) w.2.tags)

/-- The `lines_data` collection built by `_to_geodataframes`. -/
def linesData (P : Type) (nt : NodeTable) (ways : List (Int × WayData)) : List (Feature P) :=
  ways.filterMap (mkLineFeature nt)

/-- Polygon construction for one way (the body of the `polygons_data`
loop): skip the way when it has fewer than three raw references, is not
closed (first raw reference differs from last), or has fewer than three
resolvable coordinates; otherwise attempt the polygon constructor and
keep the feature only when construction succeeds and the ring is
valid. -/
def mkPolyFeature {P : Type} (lib : GeomLib P) (nt : NodeTable) (w : Int × WayData) :
    Option (Feature P) :=
  if w.2.nodes.length < 3 then none
  else if w.2.nodes.head? ≠ w.2.nodes.getLast? then none
  else if (resolve nt w.2.nodes).length < 3 then none
  else
    match lib.mkPolygon (resolve nt w.2.nodes) with
    | none => none
    | some g => if lib.isValid g then some (featureData w.1 (FVal.polyv g) w.2.tags) else none

/-- The `polygons_data` collection built by `_to_geodataframes`. -/
def polygonsData {P : Type} (lib : GeomLib P) (nt : NodeTable) (ways : List (Int × WayData)) :
    List (Feature P) :=
  ways.filterMap (mkPolyFeature lib nt)

/-- The `outer_ways` list collected while processing one multipolygon
relation: way members, present in the parsed way table, with role
`outer`, in member order. -/
def outerWays (ways : List (Int × WayData)) (members : List RelMember) : List WayData :=
  members.filterMap (fun m =>
    if m.mtype == some "way" then
      match alookup m.ref ways with
      | some wd => if m.role == "outer" then some wd else none
      | none => none
    else none)

/-- The `inner_ways` list is collected the same way but never used by
the assembly (documented limitation of the source). -/
def innerWays (ways : List (Int × WayData)) (members : List RelMember) : List WayData :=
  members.filterMap (fun m =>
    if m.mtype == some "way" then
      match alookup m.ref ways with
      | some wd => if m.role == "inner" then some wd else none
      | none => none
    else none)

/-- Multipolygon construction for one relation (the body of the
`multipolygons_data` loop): require the `type=multipolygon` tag, take
the first entry of `outer_ways`, and build a polygon from it under the
same size, construction, and validity guards as for closed ways. -/
def mkMultipolyFeature {P : Type} (lib : GeomLib P) (nt : NodeTable)
    (ways : List (Int × WayData)) (r : Int × RelData) : Option (Feature P) :=
  if alookup (some "type") r.2.tags ≠ some (some "multipolygon") then none
  else
    match outerWays ways r.2.members with
    | [] => none
    | ow :: _ =>
      if ow.nodes.length < 3 then none
      else if (resolve nt ow.nodes).length < 3 then none
      else
        match lib.mkPolygon (resolve nt ow.nodes) with
        | none => none
        | some g =>
          if lib.isValid g then some (featureData r.1 (FVal.polyv g) r.2.tags) else none

/-- The `multipolygons_data` collection built by `_to_geodataframes`. -/
def multipolygonsData {P : Type} (lib : GeomLib P) (nt : NodeTable)
    (ways : List (Int × WayData)) (rels : List (Int × RelData)) : List (Feature P) :=
  rels.filterMap (mkMultipolyFeature lib nt ways)

/-! ## GeoDataFrame model (pandas), for `app/layers.py` and `app/io.py`

A GeoDataFrame is a column list plus a list of rows; a cell holds
either a missing value (`NaN`/`None`), a string, an integer, or a
geometry, of which only the geometry kind matters to the classifier.
Reading an absent cell yields the missing value, as pandas row access
does for a column the row has no entry for. -/

/-- Geometry kind, the information `geometry.type` exposes. -/
inductive GType
  | point
  | lineString
  | polygon
  | multiPolygon
deriving DecidableEq

/-- The string `geometry.type` returns for each geometry kind. -/
def GType.typeName : GType → String
  | .point => "Point"
  | .lineString => "LineString"
  | .polygon => "Polygon"
  | .multiPolygon => "MultiPolygon"

/-- Cell value of a GeoDataFrame. -/
inductive Val
  | na
  | str (s : String)
  | intv (n : Int)
  | geom (t : GType)
deriving DecidableEq

/-- The pandas `notna` predicate on a cell. -/
def Val.notna : Val → Bool
  | .na => false
  | _ => true

/-- Text rendering of a cell under `astype(str)` / `str(...)`: a float
`NaN` renders as `nan`, a geometry as its WKT text (whose exact content
never matters below, only that it is not a boolean word). -/
def Val.pyStr : Val → String
  | .na => "nan"
  | .str s => s
  | .intv n => toString n
  | .geom t => t.typeName

/-- The boolean-tag test of the POI filter:
`astype(str).str.lower().isin(["true", "yes", "1"])`. -/
def truthy (v : Val) : Bool :=
  ["true", "yes", "1"].contains v.pyStr.toLower

/-- One row of a GeoDataFrame: cells keyed by column name. -/
abbrev Row := List (String × Val)

/-- Cell access with the pandas default for an absent entry. -/
def Row.get (r : Row) (c : String) : Val := (alookup c r).getD Val.na

/-- Projection of a row onto a list of columns, the row image under
`df[[c1, ..., cn]]`. -/
def Row.select (r : Row) (cs : List String) : Row := cs.map (fun c => (c, r.get c))

/-- GeoDataFrame: ordered column list and row list. -/
structure DF where
  cols : List String
  rows : List Row
deriving DecidableEq

/-- The pandas test `c in df.columns`. -/
def DF.hasCol (df : DF) (c : String) : Bool := df.cols.contains c

/-- Boolean-mask row filtering `df[mask]`. -/
def DF.filterRows (df : DF) (p : Row → Bool) : DF := ⟨df.cols, df.rows.filter p⟩

/-- Column selection `df[[c1, ..., cn]]`. -/
def DF.select (df : DF) (cs : List String) : DF := ⟨cs, df.rows.map (fun r => r.select cs)⟩

/-- Whole-column assignment `df[c] = v`: a new column is appended at
the end, an existing one is overwritten. -/
def DF.setCol (df : DF) (c : String) (v : Val) : DF :=
  ⟨if df.cols.contains c then df.cols else df.cols ++ [c], df.rows.map (dinsert c v)⟩

/-- The pandas `df.empty` test. -/
def DF.isEmpty (df : DF) : Bool := df.rows.isEmpty

/-- Column union in order of first appearance, as `pd.concat` aligns
frames. -/
def unionCols (a b : List String) : List String :=
  a ++ b.filter (fun c => !a.contains c)

/-- Embedding of `pd.concat(frames, ignore_index=True)`: columns are
united in order of appearance and all rows are stacked (a row simply
lacks entries for the columns its frame did not have, which reads back
as the missing value). -/
def concatDFs (dfs : List DF) : DF :=
  ⟨dfs.foldl (fun acc d => unionCols acc d.cols) [],
   dfs.foldl (fun acc d => acc ++ d.rows) []⟩

/-! ## Layer classifier (`app/layers.py`, `extract_layers`)

The input bundle maps string keys to frames.  For the network
acquisition path the source stores a road graph under `roads_graph` and
converts it with the external `ox.graph_to_gdfs(graph, nodes=False,
edges=True)`; the model stores, under `roads_graph`, directly the edge
frame that conversion would return. -/

/-- The typed result container of `extract_layers`. -/
structure ExtractedLayers where
  roads : Option DF
  buildings : Option DF
  amenities : List (String × DF)
  pois : List (String × DF)
  waterways : Option DF
  landuse : List (String × DF)
deriving DecidableEq

/-- Geometry-presence filter `df[df.geometry.notna()]`. -/
def dropNaGeom (df : DF) : DF :=
  df.filterRows (fun r => (r.get "geometry").notna)

/-- Per-key body of the generic POI loop of `extract_layers`.  When the
key is a column of the frame, keep the rows whose value is a boolean
word and project onto `(key, geometry)`; otherwise fall back to rows
matching `amenity == key` or `shop == key`, synthesize a `label` column
holding the key, and project onto `(label, geometry)`.  An empty match
yields no entry. -/
def poisStep (p : DF) (key : String) : Option DF :=
  if p.hasCol key then
    let subset := p.filterRows (fun r => truthy (r.get key))
    if subset.isEmpty then none
    else some (subset.select [key, "geometry"])
  else
    let subset := p.filterRows
      (fun r => r.get "amenity" == Val.str key || r.get "shop" == Val.str key)
    if subset.isEmpty then none
    else some ((subset.setCol "label" (Val.str key)).select ["label", "geometry"])

/-- Accumulation of one requested POI key into the `pois`
dictionary. -/
def poisAccum (p : DF) (acc : List (String × DF)) (key : String) : List (String × DF) :=
  match poisStep p key with
  | none => acc
  | some df => dinsert key df acc

/-- The `pois` dictionary built by `extract_layers`. -/
def poisOf (p : DF) (wantedPois : List String) : List (String × DF) :=
  wantedPois.foldl (poisAccum p) []

/-- Per-type body of the amenity loop of `extract_layers`. -/
def amenityStep (p : DF) (a : String) : Option DF :=
  let subset := p.filterRows (fun r => r.get "amenity" == Val.str a)
  if subset.isEmpty then none
  else some (subset.select
    (if subset.hasCol "name" then ["amenity", "name", "geometry"] else ["amenity", "geometry"]))

/-- The `amenities` dictionary built by `extract_layers`. -/
def amenitiesOf (p : DF) (wantedAmenities : List String) : List (String × DF) :=
  if p.hasCol "amenity" then
    wantedAmenities.foldl
      (fun acc a =>
        match amenityStep p a with
        | none => acc
        | some df => dinsert a df acc)
      []
  else []

/-- Per-value body of the landuse grouping loop. -/
def landuseStep (ld : DF) (v : Val) : Option DF :=
  if v.notna then
    let subset := ld.filterRows (fun r => r.get "landuse" == v)
    if subset.isEmpty then none
    else
      let keepCols := ["landuse", "name", "area"].filter (fun c => subset.hasCol c)
      some (if keepCols.isEmpty then subset.select ["landuse", "geometry"]
            else subset.select (keepCols ++ ["geometry"]))
  else none

/-- The `landuse` dictionary built by `extract_layers`: rows grouped by
their distinct `landuse` values in order of first appearance. -/
def landuseOf (p : DF) : List (String × DF) :=
  if p.hasCol "landuse" then
    let ld := p.filterRows (fun r => (r.get "landuse").notna)
    if ld.isEmpty then []
    else
      ((ld.rows.map (fun r => r.get "landuse")).eraseDups).foldl
        (fun acc v =>
          match landuseStep ld v with
          | none => acc
          | some df => dinsert v.pyStr df acc)
        []
  else []

/-- Embedding of `extract_layers` (value level): split a raw bundle
into the typed layer container.  Each section mirrors the source: roads
come only from a `roads_graph` entry, buildings from a `buildings`
entry restricted to polygonal geometry, and amenities, POIs, waterways
and landuse are all drawn from the `pois` entry. -/
def extract_layers (bundle : List (String × DF)) (wantedAmenities wantedPois : List String) :
    ExtractedLayers :=
  let roads : Option DF :=
    match alookup "roads_graph" bundle with
    | none => none
    | some edges =>
      let keepCols := ["highway", "name", "oneway", "length", "maxspeed"].filter
        (fun c => edges.hasCol c)
      some (if keepCols.isEmpty then edges.select ["geometry"]
            else edges.select (keepCols ++ ["geometry"]))
  let buildings : Option DF :=
    match alookup "buildings" bundle with
    | none => none
    | some b0 =>
      let b := dropNaGeom b0
      let bp := b.filterRows
        (fun r =>
          match r.get "geometry" with
          | Val.geom t => ["Polygon", "MultiPolygon"].contains t.typeName
          | _ => false)
      let keepCols := ["building", "name", "levels", "height"].filter (fun c => bp.hasCol c)
      some (if keepCols.isEmpty then bp.select ["geometry"]
            else bp.select (keepCols ++ ["geometry"]))
  let amenities : List (String × DF) :=
    match alookup "pois" bundle with
    | none => []
    | some p0 => amenitiesOf (dropNaGeom p0) wantedAmenities
  let pois : List (String × DF) :=
    match alookup "pois" bundle with
    | none => []
    | some p0 => poisOf (dropNaGeom p0) wantedPois
  let waterways : Option DF :=
    match alookup "pois" bundle with
    | none => none
    | some p0 =>
      let p := dropNaGeom p0
      if p.hasCol "waterway" then
        let ws := p.filterRows (fun r => (r.get "waterway").notna)
        if ws.isEmpty then none
        else
          let keepCols := ["waterway", "name", "width", "tunnel", "bridge"].filter
            (fun c => ws.hasCol c)
          some (if keepCols.isEmpty then ws.select ["waterway", "geometry"]
                else ws.select (keepCols ++ ["geometry"]))
      else none
  let landuse : List (String × DF) :=
    match alookup "pois" bundle with
    | none => []
    | some p0 => landuseOf (dropNaGeom p0)
  ⟨roads, buildings, amenities, pois, waterways, landuse⟩

/-! ## File acquisition path (`app/io.py`, `load_osm`, osm_file branch)

The structural parser returns a dict of frames keyed `ways`,
`polygons`, `multipolygons` (keys present only when the collection is
non-empty); the osm_file branch of `load_osm` repackages it into the
bundle handed to the classifier.  A `none` result models the `KeyError`
the source raises when the parsed data has a `ways` frame but no
`polygons` key (the building check reads the polygons entry
unconditionally). -/

/-- The ways slice of the bundle: filtered to highway rows when the
frame has a `highway` column. -/
def fileBranchRoads (ways : DF) : DF :=
  if ways.hasCol "highway" then ways.filterRows (fun r => (r.get "highway").notna)
  else ways

/-- Roads-and-buildings part of the osm_file branch; `none` models the
`KeyError` on a missing `polygons` key. -/
def fileBranchBase (osmData : List (String × DF)) : Option (List (String × DF)) :=
  match alookup "ways" osmData with
  | none => some []
  | some ways =>
    match alookup "polygons" osmData with
    | none => none
    | some polys =>
      if polys.hasCol "building" then
        some [("roads", fileBranchRoads ways),
          ("buildings", polys.filterRows (fun r => (r.get "building").notna))]
      else if (fileBranchRoads ways).hasCol "building" then
        some [("roads", fileBranchRoads ways),
          ("buildings", (fileBranchRoads ways).filterRows (fun r => (r.get "building").notna))]
      else some [("roads", fileBranchRoads ways)]

/-- The amenity-tagged frames collected for the `pois` entry. -/
def fileBranchPoisData (osmData : List (String × DF)) : List DF :=
  ["ways", "polygons", "multipolygons"].foldl
    (fun acc gt =>
      match alookup gt osmData with
      | none => acc
      | some gdf =>
        if gdf.hasCol "amenity" then acc ++ [gdf.filterRows (fun r => (r.get "amenity").notna)]
        else acc)
    []

def load_osm_file_branch (osmData : List (String × DF)) : Option (List (String × DF)) :=
  match fileBranchBase osmData with
  | none => none
  | some result =>
    some (if (fileBranchPoisData osmData).isEmpty then result
          else result ++ [("pois", concatDFs (fileBranchPoisData osmData))])

/-! ## Store-instrumented classifier, for the frame effect of
`extract_layers`

The value-level `extract_layers` above cannot express aliasing, so the
frame claim is settled on a second rendering of the same source in
which every pandas object lives in a store of frames and every pandas
expression that creates an object (`df[mask]`, `df[[cols]]`, `.copy()`,
the `graph_to_gdfs` conversion) allocates a new slot, while the single
in-place statement of the source, `subset["label"] = key`, overwrites
its slot.  The input bundle maps keys to slot indices of the caller. -/

abbrev Store := List DF

/-- Allocation of a fresh frame at the end of the store. -/
def Store.alloc (st : Store) (d : DF) : Store × Nat := (st ++ [d], st.length)

/-- Read of a slot (an out-of-range index never occurs in the program
below; the default is immaterial). -/
def Store.deref (st : Store) (r : Nat) : DF := st.getD r ⟨[], []⟩

/-- In-place overwrite of a slot. -/
def Store.writeAt (st : Store) (r : Nat) (d : DF) : Store := st.set r d

/-- Result shape of the store-level classifier: layer slots instead of
layer values. -/
structure LayerRefs where
  roads : Option Nat
  buildings : Option Nat
  amenities : List (String × Nat)
  pois : List (String × Nat)
  waterways : Option Nat
  landuse : List (String × Nat)

/-- Roads section of `extract_layers`, store level: the graph
conversion materializes an edge frame, and the column selection
materializes the returned frame. -/
def roadsSt (bundle : List (String × Nat)) (st : Store) : Store × Option Nat :=
  match alookup "roads_graph" bundle with
  | none => (st, none)
  | some rg =>
    let (st1, e1) := st.alloc (st.deref rg)
    let edges := st1.deref e1
    let keepCols := ["highway", "name", "oneway", "length", "maxspeed"].filter
      (fun c => edges.hasCol c)
    let sel := if keepCols.isEmpty then edges.select ["geometry"]
               else edges.select (keepCols ++ ["geometry"])
    let (st2, r2) := st1.alloc sel
    (st2, some r2)

/-- Buildings section, store level. -/
def buildingsSt (bundle : List (String × Nat)) (st : Store) : Store × Option Nat :=
  match alookup "buildings" bundle with
  | none => (st, none)
  | some rb =>
    let (st1, b1) := st.alloc (dropNaGeom (st.deref rb))
    let (st2, b2) := st1.alloc ((st1.deref b1).filterRows
      (fun r =>
        match r.get "geometry" with
        | Val.geom t => ["Polygon", "MultiPolygon"].contains t.typeName
        | _ => false))
    let (st3, b3) := st2.alloc (st2.deref b2)
    let d := st3.deref b3
    let keepCols := ["building", "name", "levels", "height"].filter (fun c => d.hasCol c)
    let (st4, b4) := st3.alloc (if keepCols.isEmpty then d.select ["geometry"]
                                else d.select (keepCols ++ ["geometry"]))
    (st4, some b4)

/-- Amenity loop body, store level. -/
def amenityLoopSt (p2 : Nat) (acc : Store × List (String × Nat)) (a : String) :
    Store × List (String × Nat) :=
  let (st, m) := acc
  let p := st.deref p2
  let (st1, s1) := st.alloc (p.filterRows (fun r => r.get "amenity" == Val.str a))
  let (st2, s2) := st1.alloc (st1.deref s1)
  let sub := st2.deref s2
  if sub.isEmpty then (st2, m)
  else
    let (st3, s3) := st2.alloc (sub.select
      (if sub.hasCol "name" then ["amenity", "name", "geometry"] else ["amenity", "geometry"]))
    (st3, dinsert a s3 m)

/-- POI loop body, store level: this is the one place where the source
mutates a frame after construction — `subset["label"] = key` writes the
slot of the freshly copied subset in place before projecting it. -/
def poisLoopSt (p2 : Nat) (acc : Store × List (String × Nat)) (key : String) :
    Store × List (String × Nat) :=
  let (st, m) := acc
  let p := st.deref p2
  if p.hasCol key then
    let (st1, s1) := st.alloc (p.filterRows (fun r => truthy (r.get key)))
    let (st2, s2) := st1.alloc (st1.deref s1)
    let sub := st2.deref s2
    if sub.isEmpty then (st2, m)
    else
      let (st3, s3) := st2.alloc (sub.select [key, "geometry"])
      (st3, dinsert key s3 m)
  else
    let (st1, s1) := st.alloc (p.filterRows
      (fun r => r.get "amenity" == Val.str key || r.get "shop" == Val.str key))
    let (st2, s2) := st1.alloc (st1.deref s1)
    let sub := st2.deref s2
    if sub.isEmpty then (st2, m)
    else
      let st3 := st2.writeAt s2 (sub.setCol "label" (Val.str key))
      let (st4, s4) := st3.alloc ((st3.deref s2).select ["label", "geometry"])
      (st4, dinsert key s4 m)

/-- Amenities-and-POIs section, store level: the `pois` frame is
filtered and copied once and both loops run over that copy. -/
def poisSectionSt (bundle : List (String × Nat)) (wa wp : List String) (st : Store) :
    Store × List (String × Nat) × List (String × Nat) :=
  match alookup "pois" bundle with
  | none => (st, [], [])
  | some rp =>
    let (st1, p1) := st.alloc (dropNaGeom (st.deref rp))
    let (st2, p2) := st1.alloc (st1.deref p1)
    let resA :=
      if (st2.deref p2).hasCol "amenity" then wa.foldl (amenityLoopSt p2) (st2, [])
      else (st2, [])
    let resP := wp.foldl (poisLoopSt p2) (resA.1, [])
    (resP.1, resA.2, resP.2)

/-- Waterways section, store level. -/
def waterwaysSt (bundle : List (String × Nat)) (st : Store) : Store × Option Nat :=
  match alookup "pois" bundle with
  | none => (st, none)
  | some rp =>
    let (st1, p1) := st.alloc (dropNaGeom (st.deref rp))
    let (st2, p2) := st1.alloc (st1.deref p1)
    let p := st2.deref p2
    if p.hasCol "waterway" then
      let (st3, w1) := st2.alloc (p.filterRows (fun r => (r.get "waterway").notna))
      let (st4, w2) := st3.alloc (st3.deref w1)
      let ws := st4.deref w2
      if ws.isEmpty then (st4, none)
      else
        let keepCols := ["waterway", "name", "width", "tunnel", "bridge"].filter
          (fun c => ws.hasCol c)
        let (st5, w3) := st4.alloc (if keepCols.isEmpty then ws.select ["waterway", "geometry"]
                                    else ws.select (keepCols ++ ["geometry"]))
        (st5, some w3)
    else (st2, none)

/-- Landuse loop body, store level. -/
def landuseLoopSt (ld : Nat) (acc : Store × List (String × Nat)) (v : Val) :
    Store × List (String × Nat) :=
  let (st, m) := acc
  if v.notna then
    let (st1, s1) := st.alloc ((st.deref ld).filterRows (fun r => r.get "landuse" == v))
    let (st2, s2) := st1.alloc (st1.deref s1)
    let sub := st2.deref s2
    if sub.isEmpty then (st2, m)
    else
      let keepCols := ["landuse", "name", "area"].filter (fun c => sub.hasCol c)
      let (st3, s3) := st2.alloc (if keepCols.isEmpty then sub.select ["landuse", "geometry"]
                                  else sub.select (keepCols ++ ["geometry"]))
      (st3, dinsert v.pyStr s3 m)
  else (st, m)

/-- Landuse section, store level. -/
def landuseSt (bundle : List (String × Nat)) (st : Store) :
    Store × List (String × Nat) :=
  match alookup "pois" bundle with
  | none => (st, [])
  | some rp =>
    let (st1, p1) := st.alloc (dropNaGeom (st.deref rp))
    let (st2, p2) := st1.alloc (st1.deref p1)
    let p := st2.deref p2
    if p.hasCol "landuse" then
      let (st3, l1) := st2.alloc (p.filterRows (fun r => (r.get "landuse").notna))
      let ldv := st3.deref l1
      if ldv.isEmpty then (st3, [])
      else
        ((ldv.rows.map (fun r => r.get "landuse")).eraseDups).foldl (landuseLoopSt l1) (st3, [])
    else (st2, [])

/-- Store-level `extract_layers`: the five sections run in source
order on a shared store. -/
def extract_layers_st (bundle : List (String × Nat)) (wa wp : List String) (st : Store) :
    Store × LayerRefs :=
  let r1 := roadsSt bundle st
  let r2 := buildingsSt bundle r1.1
  let r3 := poisSectionSt bundle wa wp r2.1
  let r4 := waterwaysSt bundle r3.1
  let r5 := landuseSt bundle r4.1
  (r5.1, ⟨r1.2, r2.2, r3.2.1, r3.2.2, r4.2, r5.2⟩)

/-- Freshness of every slot mentioned in the returned layer container
relative to the pre-call store size. -/
def refsFresh (n : Nat) (lr : LayerRefs) : Bool :=
  lr.roads.all (fun r => n ≤ r) && lr.buildings.all (fun r => n ≤ r)
    && lr.amenities.all (fun kr => n ≤ kr.2) && lr.pois.all (fun kr => n ≤ kr.2)
    && lr.waterways.all (fun r => n ≤ r) && lr.landuse.all (fun kr => n ≤ kr.2)

/-! ## Source cache and input dispatch (`app/io.py`)

File modification times are integers (seconds); the TTL comparison
`(time.time() - mtime) / 3600 > ttl_hours` is carried out on reals in
the source, which for non-negative ages is equivalent to
`now - mtime > ttl * 3600`, the form used here to avoid a spurious
floor division.  The md5 step of `_get_cache_key` is external and
injective for the purposes of the cache, so the key is modeled by the
exact content of the `key_data` string it hashes, as a structured
value. -/

/-- File-system view: current working directory and a table from
absolute path to last modification time. -/
structure FileSys where
  cwd : String
  files : List (String × Nat)

/-- Resolution of a possibly relative path against the working
directory, as the operating system does for `Path.exists` /
`Path.stat`: a path is absolute exactly when it starts with a slash. -/
def absolutize (cwd p : String) : String :=
  if p.data.head? = some '/' then p else cwd ++ "/" ++ p

/-- Modification time of a file named by a possibly relative path;
`none` when the file does not exist. -/
def FileSys.mtimeOf (fs : FileSys) (p : String) : Option Nat :=
  alookup (absolutize fs.cwd p) fs.files

/-- Bounding box, four coordinates. -/
abbrev BBox := Int × Int × Int × Int

/-- Content of the `key_data` string hashed by `_get_cache_key`: for a
file source, the path string exactly as passed by the caller together
with the modification time when the file exists (the source
interpolates the raw `osm_file` argument, not a resolved path); for a
bounding box or place, the literal descriptor. -/
inductive CacheKeyData
  | fileKey (path : String) (mtime : Option Nat)
  | bboxKey (b : BBox)
  | placeKey (p : String)
deriving DecidableEq

/-- Embedding of `_get_cache_key`: file input takes precedence, then
bounding box, then place; no input at all raises
`ValueError("No input specified")`. -/
def getCacheKey (fs : FileSys) (bbox : Option BBox) (place : Option String)
    (osmFile : Option String) : Except String CacheKeyData :=
  match osmFile with
  | some f =>
    match fs.mtimeOf f with
    | some m => .ok (CacheKeyData.fileKey f (some m))
    | none => .ok (CacheKeyData.fileKey f none)
  | none =>
    match bbox with
    | some b => .ok (CacheKeyData.bboxKey b)
    | none =>
      match place with
      | some pl => .ok (CacheKeyData.placeKey pl)
      | none => .error "No input specified"

/-- Specification-side key derivation for a file source, following the
words of the spec: a hash over the pair (absolute path of the file, its
last modification time).  It exists only to be compared with
`getCacheKey`, which embeds the source. -/
def cacheKeyDataSpec (fs : FileSys) (osmFile : String) : CacheKeyData :=
  CacheKeyData.fileKey (absolutize fs.cwd osmFile) (fs.mtimeOf osmFile)

/-- Observable I/O steps of a load call, used to state that input
validation precedes any I/O. -/
inductive IOEvent
  | parseOsmFile (p : String)
  | netFetchBBox (b : BBox)
  | netFetchPlace (p : String)
  | cacheRead (k : CacheKeyData)
  | cacheWrite (k : CacheKeyData)
deriving DecidableEq

/-- Number of structural-parse calls among the recorded events. -/
def parseCalls (evs : List IOEvent) : Nat :=
  (evs.filter (fun e => match e with | IOEvent.parseOsmFile _ => true | _ => false)).length

/-- Embedding of `load_osm` at the acquisition-dispatch level.  The
three acquisition bodies (file parse plus repackaging, and the two
network fetches, which each make their osmnx calls) are abstract
functions producing a bundle of type `β`; the branch order mirrors the
`if osm_file / elif bbox / elif place / else raise` chain. -/
def load_osm {β : Type} (parseFile : String → β) (fetchBBox : BBox → β)
    (fetchPlace : String → β) (bbox : Option BBox) (place : Option String)
    (osmFile : Option String) : Except String β × List IOEvent :=
  match osmFile with
  | some f => (.ok (parseFile f), [IOEvent.parseOsmFile f])
  | none =>
    match bbox with
    | some b => (.ok (fetchBBox b), [IOEvent.netFetchBBox b])
    | none =>
      match place with
      | some pl => (.ok (fetchPlace pl), [IOEvent.netFetchPlace pl])
      | none => (.error "Either bbox, place, or osm_file must be provided.", [])

/-- One cache file: its own modification time (set when written) and
the serialized bundle.  Corrupt entries are not modeled; no claim below
touches the corruption path. -/
structure CacheEntry (β : Type) where
  fileMtime : Nat
  data : β
deriving DecidableEq

/-- Cache directory: one entry per key. -/
def CacheDir (β : Type) := List (CacheKeyData × CacheEntry β)

/-- Embedding of `_load_from_cache`: a missing entry is a miss, an
entry older than the TTL is deleted and a miss, otherwise the stored
bundle is returned. -/
def loadFromCache {β : Type} (cache : CacheDir β) (key : CacheKeyData) (now ttl : Nat) :
    CacheDir β × Option β :=
  match alookup key cache with
  | none => (cache, none)
  | some e =>
    if ttl * 3600 < now - e.fileMtime then
      (cache.filter (fun kv => !(kv.1 == key)), none)
    else (cache, some e.data)

/-- Embedding of `load_osm_cached`: with caching enabled the key is
derived first (this is where a missing input fails, before any I/O),
then the cache is consulted, and on a miss the data is loaded fresh
and written back under a freshly derived key. -/
def load_osm_cached {β : Type} (parseFile : String → β) (fetchBBox : BBox → β)
    (fetchPlace : String → β) (fs : FileSys) (cache : CacheDir β) (now : Nat)
    (bbox : Option BBox) (place : Option String) (osmFile : Option String)
    (cacheEnabled : Bool) (ttl : Nat) :
    Except String β × CacheDir β × List IOEvent :=
  if cacheEnabled then
    match getCacheKey fs bbox place osmFile with
    | .error e => (.error e, cache, [])
    | .ok key =>
      match loadFromCache cache key now ttl with
      | (cache1, some data) => (.ok data, cache1, [IOEvent.cacheRead key])
      | (cache1, none) =>
        match load_osm parseFile fetchBBox fetchPlace bbox place osmFile with
        | (.error e, evs) => (.error e, cache1, IOEvent.cacheRead key :: evs)
        | (.ok data, evs) =>
          match getCacheKey fs bbox place osmFile with
          | .error e => (.error e, cache1, IOEvent.cacheRead key :: evs)
          | .ok key2 =>
            (.ok data, dinsert key2 ⟨now, data⟩ cache1,
             IOEvent.cacheRead key :: evs ++ [IOEvent.cacheWrite key2])
  else
    match load_osm parseFile fetchBBox fetchPlace bbox place osmFile with
    | (r, evs) => (r, cache, evs)

/-! ## Concrete instances used by counterexamples and witnesses -/

/-- Concrete geometry library over coordinate-list polygons: the
constructor always succeeds and every ring counts as valid. -/
def libList : GeomLib (List Coord) := ⟨fun cs => some cs, fun _ => true⟩

/-- Concrete geometry library over the unit type. -/
def libUnit : GeomLib Unit := ⟨fun _ => some (), fun _ => true⟩

/-- Three nodes forming a triangle. -/
def ntTriangle : NodeTable := [(1, (0, 0)), (2, (4, 0)), (3, (0, 3))]

/-- A closed triangular way with one tag. -/
def wdTriangle : WayData := ⟨[1, 2, 3, 1], [(some "building", some "yes")]⟩

/-- One parsed way table holding the triangular way under id 1. -/
def waysTriangle : List (Int × WayData) := [(1, wdTriangle)]

/-- A way whose tag map shadows the synthetic `id` attribute. -/
def wdShadow : WayData := ⟨[1, 2], [(some "id", some "shadow")]⟩

/-- A multipolygon relation whose first outer-role way member
references a way absent from the way table (id 99), followed by an
outer member that is present (id 1). -/
def rdFirstMissing : RelData :=
  ⟨[⟨some "way", 99, "outer"⟩, ⟨some "way", 1, "outer"⟩],
   [(some "type", some "multipolygon")]⟩

/-- A multipolygon relation with a way member whose role is `inner`
and no outer member. -/
def rdNoOuter : RelData :=
  ⟨[⟨some "way", 1, "inner"⟩], [(some "type", some "multipolygon")]⟩

/-- Parser-output `ways` frame with one residential-road line
feature. -/
def waysDFC1 : DF :=
  ⟨["id", "geometry", "highway"],
   [[("id", Val.intv 1), ("geometry", Val.geom GType.lineString),
     ("highway", Val.str "residential")]]⟩

/-- Parser output holding that line feature and an empty polygon
frame. -/
def osmDataC1 : List (String × DF) :=
  [("ways", waysDFC1), ("polygons", ⟨["id", "geometry"], []⟩)]

/-- The bundle the osm_file branch builds from `osmDataC1`. -/
def bundleC1 : List (String × DF) := [("roads", waysDFC1)]

/-- An edge frame as returned by the road-graph conversion on the
network path. -/
def edgesC1 : DF :=
  ⟨["highway", "name", "geometry"],
   [[("highway", Val.str "primary"), ("name", Val.str "Broad St"),
     ("geometry", Val.geom GType.lineString)]]⟩

/-- POI frame of the fake bundle of the unit test: an amenity column,
a shop column with one supermarket, and no boolean `supermarket` or
`bank` column. -/
def poisDFC6 : DF :=
  ⟨["amenity", "shop", "geometry"],
   [[("amenity", Val.str "school"), ("shop", Val.na), ("geometry", Val.geom GType.point)],
    [("amenity", Val.na), ("shop", Val.str "supermarket"), ("geometry", Val.geom GType.point)]]⟩

/-- Bundle carrying the POI frame above. -/
def bundleC6 : List (String × DF) := [("pois", poisDFC6)]

/-- File system with one OSM file under the working directory. -/
def fsC3 : FileSys := ⟨"/w", [("/w/a.osm", 5)]⟩

/-- The same file system after the modification time of the file
changed. -/
def fsC3touched : FileSys := ⟨"/w", [("/w/a.osm", 9)]⟩

/-! ## Supporting lemmas -/

theorem alookup_dinsert_self {κ α : Type} [BEq κ] [LawfulBEq κ] (k : κ) (v : α)
    (l : List (κ × α)) : alookup k (dinsert k v l) = some v := by
  induction l with
  | nil => simp [alookup, dinsert]
  | cons p rest ih =>
    by_cases h : p.1 == k
    · simp [alookup, dinsert, h]
    · simp [alookup, dinsert, h, ih]

theorem alookup_dinsert_ne {κ α : Type} [BEq κ] [LawfulBEq κ] (k j : κ) (v : α)
    (l : List (κ × α)) (h : j ≠ k) : alookup j (dinsert k v l) = alookup j l := by
  have hkj : (k == j) = false := by
    simpa using fun hkj => h hkj.symm
  induction l with
  | nil => simp [alookup, dinsert, hkj]
  | cons p rest ih =>
    by_cases hp : p.1 == k
    · have hpk : p.1 = k := by simpa using hp
      have hpj : (p.1 == j) = false := by subst hpk; exact hkj
      simp [alookup, dinsert, hp, hpj, hpk, hkj]
    · simp only [dinsert, hp, if_false, alookup]
      by_cases hj : p.1 == j
      · simp [hj]
      · simp [hj, ih]

theorem alookup_isSome_dinsert {κ α : Type} [BEq κ] [LawfulBEq κ] (k j : κ) (v : α)
    (l : List (κ × α)) (h : (alookup j l).isSome = true) :
    (alookup j (dinsert k v l)).isSome = true := by
  by_cases hjk : j = k
  · subst hjk; simp [alookup_dinsert_self]
  · rw [alookup_dinsert_ne k j v l hjk]; exact h

theorem wayFold_tag_present (cs : List XChild) (wd : WayData) (k : Option String)
    (h : (alookup k wd.tags).isSome = true ∨ ∃ v, XChild.tag k v ∈ cs) :
    (alookup k (cs.foldl wayStep wd).tags).isSome = true := by
  induction cs generalizing wd with
  | nil =>
    rcases h with h | ⟨v, hv⟩
    · exact h
    · simp at hv
  | cons c rest ih =>
    simp only [List.foldl_cons]
    apply ih
    rcases h with h | ⟨v, hv⟩
    · left
      cases c with
      | nd ref => exact h
      | tag k2 v2 => exact alookup_isSome_dinsert k2 k v2 wd.tags h
      | member t ref role => exact h
      | other => exact h
    · rcases List.mem_cons.mp hv with heq | hmem
      · left
        rw [← heq]
        simp [wayStep, alookup_dinsert_self]
      · right
        exact ⟨v, hmem⟩

theorem relFold_tag_present (cs : List XChild) (rd : RelData) (k : Option String)
    (h : (alookup k rd.tags).isSome = true ∨ ∃ v, XChild.tag k v ∈ cs) :
    (alookup k (cs.foldl relStep rd).tags).isSome = true := by
  induction cs generalizing rd with
  | nil =>
    rcases h with h | ⟨v, hv⟩
    · exact h
    · simp at hv
  | cons c rest ih =>
    simp only [List.foldl_cons]
    apply ih
    rcases h with h | ⟨v, hv⟩
    · left
      cases c with
      | nd ref => exact h
      | tag k2 v2 => exact alookup_isSome_dinsert k2 k v2 rd.tags h
      | member t ref role => exact h
      | other => exact h
    · rcases List.mem_cons.mp hv with heq | hmem
      · left
        rw [← heq]
        simp [relStep, alookup_dinsert_self]
      · right
        exact ⟨v, hmem⟩

theorem resolve_length_le (nt : NodeTable) (refs : List Int) :
    (resolve nt refs).length ≤ refs.length :=
  List.length_filterMap_le _ _

/-! ## Claim theorems -/

/-- C2, counterexample: a tag element lacking its key attribute (or its
value attribute) is not skipped by `_parse_way` / `_parse_relation` —
it is stored in the tag map, with `None` standing for the missing
attribute, so it does contribute an entry. -/
theorem parse_tag_without_attribute_cex :
    (parseWayChildren [XChild.tag none (some "v")]).tags = [(none, some "v")]
    ∧ (parseWayChildren [XChild.tag none (some "v")]).tags ≠ []
    ∧ (parseRelationChildren [XChild.tag (some "k") none]).tags = [(some "k", none)]
    ∧ (parseRelationChildren [XChild.tag (some "k") none]).tags ≠ [] := by
  decide

/-- C2, amended: a nested tag element that lacks a key attribute or a
value attribute raises no error, but it is not skipped either: for
every way or relation element, every tag child — attributes present or
not — leaves an entry under its (possibly missing) key in the stored
tag map. -/
theorem parse_tag_without_attribute_stored (cs : List XChild) (k v : Option String)
    (h : XChild.tag k v ∈ cs) :
    (alookup k (parseWayChildren cs).tags).isSome = true
    ∧ (alookup k (parseRelationChildren cs).tags).isSome = true :=
  ⟨wayFold_tag_present cs ⟨[], []⟩ k (Or.inr ⟨v, h⟩),
   relFold_tag_present cs ⟨[], []⟩ k (Or.inr ⟨v, h⟩)⟩

/-- C2, witness for the amended theorem at a concrete element. -/
theorem parse_tag_without_attribute_stored_witness :
    (alookup (none : Option String) (parseWayChildren [XChild.tag none (some "v")]).tags).isSome = true
    ∧ (alookup (none : Option String) (parseRelationChildren [XChild.tag none (some "v")]).tags).isSome = true :=
  parse_tag_without_attribute_stored [XChild.tag none (some "v")] none (some "v") (by simp)

/-- C7: the line pass of `_to_geodataframes` produces, for every way
with at least two resolvable node coordinates (unresolvable references
dropped, order preserved), exactly one line feature carrying the tags
of that way, and produces nothing for a way with fewer than two
resolvable coordinates — the raw-length pre-check of the source is
subsumed by the resolvable-count check. -/
theorem way_line_feature_exactly_one (P : Type) (nt : NodeTable)
    (ways : List (Int × WayData)) :
    linesData P nt ways = ways.filterMap (fun w =>
      if 2 ≤ (resolve nt w.2.nodes).length then
        some (featureData w.1 (FVal.linev (resolve nt w.2.nodes)) w.2.tags)
      else none) := by
  unfold linesData
  apply List.filterMap_congr
  intro w _
  unfold mkLineFeature
  have hle := resolve_length_le nt w.2.nodes
  by_cases h2 : 2 ≤ (resolve nt w.2.nodes).length
  · have hraw : ¬ w.2.nodes.length < 2 := by omega
    have hres : ¬ (resolve nt w.2.nodes).length < 2 := by omega
    simp [hraw, hres, h2]
  · by_cases hraw : w.2.nodes.length < 2
    · simp [hraw, h2]
    · have hres : (resolve nt w.2.nodes).length < 2 := by omega
      simp [hraw, hres, h2]

theorem mkLineFeature_inv {P : Type} (nt : NodeTable) (w : Int × WayData) (f : Feature P)
    (h : mkLineFeature nt w = some f) :
    f = featureData w.1 (FVal.linev (resolve nt w.2.nodes)) w.2.tags := by
  unfold mkLineFeature at h
  split at h
  · exact absurd h (by simp)
  · split at h
    · exact absurd h (by simp)
    · exact (Option.some.inj h).symm

theorem mkPolyFeature_inv {P : Type} (lib : GeomLib P) (nt : NodeTable) (w : Int × WayData)
    (f : Feature P) (h : mkPolyFeature lib nt w = some f) :
    ∃ g, lib.mkPolygon (resolve nt w.2.nodes) = some g ∧ lib.isValid g = true ∧
      f = featureData w.1 (FVal.polyv g) w.2.tags := by
  unfold mkPolyFeature at h
  split at h
  · exact absurd h (by simp)
  · split at h
    · exact absurd h (by simp)
    · split at h
      · exact absurd h (by simp)
      · split at h
        · exact absurd h (by simp)
        · next g hp =>
          split at h
          · next hv => exact ⟨g, hp, hv, (Option.some.inj h).symm⟩
          · exact absurd h (by simp)

theorem mkMultipolyFeature_inv {P : Type} (lib : GeomLib P) (nt : NodeTable)
    (ways : List (Int × WayData)) (r : Int × RelData) (f : Feature P)
    (h : mkMultipolyFeature lib nt ways r = some f) :
    ∃ ow rest g, outerWays ways r.2.members = ow :: rest ∧
      lib.mkPolygon (resolve nt ow.nodes) = some g ∧ lib.isValid g = true ∧
      f = featureData r.1 (FVal.polyv g) r.2.tags := by
  unfold mkMultipolyFeature at h
  split at h
  · exact absurd h (by simp)
  · split at h
    · exact absurd h (by simp)
    · next ow rest hout =>
      split at h
      · exact absurd h (by simp)
      · split at h
        · exact absurd h (by simp)
        · split at h
          · exact absurd h (by simp)
          · next g hp =>
            split at h
            · next hv => exact ⟨ow, rest, g, hout, hp, hv, (Option.some.inj h).symm⟩
            · exact absurd h (by simp)

/-- C8: a way whose raw node-reference list starts and ends on the same
identifier and resolves to at least three distinct coordinates forming
a ring the geometry library constructs and accepts as valid yields
exactly one polygon feature, in addition to its line feature; a ring
the library rejects (construction failure or invalidity) or an
under-sized ring yields no polygon feature, and one dropped way never
disturbs the polygon features of the remaining ways. -/
theorem closed_way_polygon_feature (P : Type) (lib : GeomLib P) (nt : NodeTable)
    (wid : Int) (wd : WayData) (g : P)
    (hcl : wd.nodes.head? = wd.nodes.getLast?)
    (hdist : 3 ≤ ((resolve nt wd.nodes).dedup).length)
    (hpoly : lib.mkPolygon (resolve nt wd.nodes) = some g)
    (hval : lib.isValid g = true) :
    mkPolyFeature lib nt (wid, wd) = some (featureData wid (FVal.polyv g) wd.tags)
    ∧ (mkLineFeature nt (wid, wd) : Option (Feature P))
        = some (featureData wid (FVal.linev (resolve nt wd.nodes)) wd.tags)
    ∧ (∀ w : Int × WayData,
        (∀ g2, lib.mkPolygon (resolve nt w.2.nodes) = some g2 → lib.isValid g2 = false) →
        mkPolyFeature lib nt w = none)
    ∧ (∀ w : Int × WayData, (resolve nt w.2.nodes).length < 3 → mkPolyFeature lib nt w = none)
    ∧ (∀ ws1 ws2, polygonsData lib nt (ws1 ++ ws2)
        = polygonsData lib nt ws1 ++ polygonsData lib nt ws2) := by
  have hsub : ((resolve nt wd.nodes).dedup).length ≤ (resolve nt wd.nodes).length :=
    (List.dedup_sublist _).length_le
  have hres3 : 3 ≤ (resolve nt wd.nodes).length := le_trans hdist hsub
  have hraw3 : 3 ≤ wd.nodes.length := le_trans hres3 (resolve_length_le nt wd.nodes)
  refine ⟨?_, ?_, ?_, ?_, ?_⟩
  · unfold mkPolyFeature
    have h1 : ¬ wd.nodes.length < 3 := by omega
    have h3 : ¬ (resolve nt wd.nodes).length < 3 := by omega
    simp [h1, hcl, h3, hpoly, hval]
  · unfold mkLineFeature
    have h1 : ¬ wd.nodes.length < 2 := by omega
    have h2 : ¬ (resolve nt wd.nodes).length < 2 := by omega
    simp [h1, h2]
  · intro w hg
    unfold mkPolyFeature
    by_cases h1 : w.2.nodes.length < 3
    · simp [h1]
    · by_cases h2 : w.2.nodes.head? ≠ w.2.nodes.getLast?
      · simp [h1, h2]
      · by_cases h3 : (resolve nt w.2.nodes).length < 3
        · simp [h1, h2, h3]
        · cases hp : lib.mkPolygon (resolve nt w.2.nodes) with
          | none => simp [h1, h2, h3, hp]
          | some g2 => simp [h1, h2, h3, hp, hg g2 hp]
  · intro w h3
    unfold mkPolyFeature
    by_cases h1 : w.2.nodes.length < 3
    · simp [h1]
    · by_cases h2 : w.2.nodes.head? ≠ w.2.nodes.getLast?
      · simp [h1, h2]
      · simp [h1, h2, h3]
  · intro ws1 ws2
    unfold polygonsData
    exact List.filterMap_append _ _ _

/-- C8, witness: the closed triangular way yields its polygon
feature. -/
theorem closed_way_polygon_feature_witness :
    mkPolyFeature libList ntTriangle (1, wdTriangle)
      = some (featureData 1 (FVal.polyv [(0, 0), (4, 0), (0, 3), (0, 0)]) wdTriangle.tags) :=
  (closed_way_polygon_feature (List Coord) libList ntTriangle 1 wdTriangle
    [(0, 0), (4, 0), (0, 3), (0, 0)] (by decide) (by decide) (by decide) (by decide)).1

theorem alookup_tagFold {P : Type} (j : Option String) (tags : TagMap) (init : Feature P) :
    alookup j tags = none →
    alookup j (tags.foldl (fun acc kv => dinsert kv.1 (FVal.tagv kv.2) acc) init)
      = alookup j init := by
  induction tags generalizing init with
  | nil => intro _; rfl
  | cons kv rest ih =>
    intro h
    by_cases hk : kv.1 == j
    · simp [alookup, hk] at h
    · have hrest : alookup j rest = none := by simpa [alookup, hk] using h
      have hne : j ≠ kv.1 := fun he => by simp [he] at hk
      simp only [List.foldl_cons]
      rw [ih (dinsert kv.1 (FVal.tagv kv.2) init) hrest,
        alookup_dinsert_ne kv.1 j (FVal.tagv kv.2) init hne]

theorem featureData_id_of_no_shadow {P : Type} (oid : Int) (geom : FVal P) (tags : TagMap)
    (h : alookup (some "id") tags = none) :
    alookup (some "id") (featureData oid geom tags) = some (FVal.intv oid) := by
  unfold featureData
  rw [alookup_tagFold (some "id") tags _ h]
  rfl

theorem featureData_geom_of_no_shadow {P : Type} (oid : Int) (geom : FVal P) (tags : TagMap)
    (h : alookup (some "geometry") tags = none) :
    alookup (some "geometry") (featureData oid geom tags) = some geom := by
  unfold featureData
  rw [alookup_tagFold (some "geometry") tags _ h]
  rfl

/-- C5, counterexample: a way whose own tag map contains a key named
`id` loses the identifier of its source way — the dict merge
the feature dict (fixed id and geometry entries followed by the
splatted tag map) lets the tag overwrite the
synthetic identifier, so the derived line feature of way 7 carries
`id = "shadow"` instead of the integer 7. -/
theorem feature_id_shadowed_cex :
    (mkLineFeature ntTriangle (7, wdShadow) : Option (Feature Unit))
      = some [(some "id", FVal.tagv (some "shadow")), (some "geometry", FVal.linev [(0, 0), (4, 0)])]
    ∧ alookup (some "id") (featureData 7 (FVal.linev [(0, 0), (4, 0)]) wdShadow.tags : Feature Unit)
      ≠ some (FVal.intv 7) := by
  decide

/-- C5, amended: every derived feature — way line, way polygon, or
relation-derived polygon — retains the identifier of its source way or
relation under the `id` attribute provided the tag map of the source
does not itself contain a key named `id`; symmetrically the geometry is
held under `geometry` unless a tag of that name overwrites it.  (A tag
literally named `id` or `geometry` overwrites the synthetic
attribute.) -/
theorem feature_source_id_traceability (P : Type) (lib : GeomLib P) (nt : NodeTable)
    (ways : List (Int × WayData)) :
    (∀ (w : Int × WayData) (f : Feature P), alookup (some "id") w.2.tags = none →
        mkLineFeature nt w = some f → alookup (some "id") f = some (FVal.intv w.1))
    ∧ (∀ (w : Int × WayData) (f : Feature P), alookup (some "id") w.2.tags = none →
        mkPolyFeature lib nt w = some f → alookup (some "id") f = some (FVal.intv w.1))
    ∧ (∀ (r : Int × RelData) (f : Feature P), alookup (some "id") r.2.tags = none →
        mkMultipolyFeature lib nt ways r = some f → alookup (some "id") f = some (FVal.intv r.1))
    ∧ (∀ (oid : Int) (geom : FVal P) (tags : TagMap), alookup (some "geometry") tags = none →
        alookup (some "geometry") (featureData oid geom tags) = some geom) := by
  refine ⟨?_, ?_, ?_, ?_⟩
  · intro w f htag hsome
    rw [mkLineFeature_inv nt w f hsome]
    exact featureData_id_of_no_shadow w.1 _ w.2.tags htag
  · intro w f htag hsome
    obtain ⟨g, _, _, hf⟩ := mkPolyFeature_inv lib nt w f hsome
    rw [hf]
    exact featureData_id_of_no_shadow w.1 _ w.2.tags htag
  · intro r f htag hsome
    obtain ⟨ow, rest, g, _, _, _, hf⟩ := mkMultipolyFeature_inv lib nt ways r f hsome
    rw [hf]
    exact featureData_id_of_no_shadow r.1 _ r.2.tags htag
  · intro oid geom tags h
    exact featureData_geom_of_no_shadow oid geom tags h

/-- C5, witness: a way without an `id` tag keeps its source identifier
on the derived line feature. -/
theorem feature_source_id_traceability_witness :
    alookup (some "id")
      (featureData 1 (FVal.linev (resolve ntTriangle wdTriangle.nodes)) wdTriangle.tags
        : Feature Unit)
      = some (FVal.intv 1) :=
  (feature_source_id_traceability Unit libUnit ntTriangle []).1 (1, wdTriangle)
    (featureData 1 (FVal.linev (resolve ntTriangle wdTriangle.nodes)) wdTriangle.tags)
    (by decide) (by decide)

theorem outerWays_eq_nil_of_no_outer (ways : List (Int × WayData)) (ms : List RelMember)
    (h : ∀ m ∈ ms, ¬(m.mtype = some "way" ∧ m.role = "outer")) :
    outerWays ways ms = [] := by
  unfold outerWays
  rw [List.filterMap_eq_nil_iff]
  intro m hm
  by_cases hty : m.mtype == some "way"
  · cases hro : (m.role == "outer") with
    | false =>
      cases hl : alookup m.ref ways with
      | none => simp [hty, hl]
      | some wd => simp [hty, hl, hro]
    | true =>
      exact absurd ⟨by simpa using hty, by simpa using hro⟩ (h m hm)
  · simp [hty]

theorem outerWays_head_of_find (ways : List (Int × WayData)) (ms : List RelMember)
    (m : RelMember) (wd : WayData)
    (hfind : ms.find? (fun m2 => m2.mtype == some "way"
      && (alookup m2.ref ways).isSome && m2.role == "outer") = some m)
    (hwd : alookup m.ref ways = some wd) :
    (outerWays ways ms).head? = some wd := by
  induction ms with
  | nil => simp at hfind
  | cons m0 rest ih =>
    by_cases h0 : (m0.mtype == some "way" && (alookup m0.ref ways).isSome
        && m0.role == "outer") = true
    · simp only [List.find?, h0] at hfind
      obtain rfl : m0 = m := by simpa using hfind
      obtain ⟨⟨hty, hsome⟩, hrole⟩ :
          ((m0.mtype == some "way") = true ∧ (alookup m0.ref ways).isSome = true)
            ∧ (m0.role == "outer") = true := by
        have h1 := (Bool.and_eq_true _ _).mp h0
        exact ⟨(Bool.and_eq_true _ _).mp h1.1, h1.2⟩
      have hty2 : m0.mtype = some "way" := by simpa using hty
      have hrole2 : m0.role = "outer" := by simpa using hrole
      simp [outerWays, List.filterMap_cons, hty2, hwd, hrole2]
    · have h0f : (m0.mtype == some "way" && (alookup m0.ref ways).isSome
          && m0.role == "outer") = false := by
        revert h0
        cases m0.mtype == some "way" && (alookup m0.ref ways).isSome && m0.role == "outer" <;> simp
      simp only [List.find?, h0f] at hfind
      have hnone :
          (if m0.mtype == some "way" then
            match alookup m0.ref ways with
            | some wd0 => if m0.role == "outer" then some wd0 else none
            | none => none
          else none) = none := by
        by_cases hty : (m0.mtype == some "way") = true
        · cases hl : alookup m0.ref ways with
          | none => simp [hty, hl]
          | some wd0 =>
            have hsome : (alookup m0.ref ways).isSome = true := by simp [hl]
            cases hro : (m0.role == "outer") with
            | false => simp [hty, hl, hro]
            | true => exact absurd (by simp [hty, hsome, hro]) h0
        · simp [hty]
      have hstep : outerWays ways (m0 :: rest) = outerWays ways rest := by
        simp only [outerWays, List.filterMap_cons]
        rw [hnone]
      rw [hstep]
      exact ih hfind

/-- C9, counterexample: in a multipolygon relation whose member list
starts with an outer-role way member referencing a way absent from the
parsed way table (id 99) and continues with a present outer member
(way 1), the assembled polygon takes its ring from the second member —
so the first outer way member is not the ring source, contrary to the
claim. -/
theorem multipolygon_first_outer_cex :
    rdFirstMissing.members.find? (fun m => m.mtype == some "way" && m.role == "outer")
      = some ⟨some "way", 99, "outer"⟩
    ∧ alookup (99 : Int) waysTriangle = none
    ∧ mkMultipolyFeature libList ntTriangle waysTriangle (5, rdFirstMissing)
      = some (featureData 5 (FVal.polyv [(0, 0), (4, 0), (0, 3), (0, 0)]) rdFirstMissing.tags) := by
  decide

/-- C9, amended: a relation tagged `type=multipolygon` with no way
member of role `outer` produces no polygon feature; when a polygon
feature is produced, its ring comes from the first outer-role way
member that is present in the parsed way table (members referencing
absent ways are skipped); and one relation is processed independently
of the rest. -/
theorem multipolygon_outer_selection (P : Type) (lib : GeomLib P) (nt : NodeTable)
    (ways : List (Int × WayData)) (rid : Int) (rd : RelData) :
    ((∀ m ∈ rd.members, ¬(m.mtype = some "way" ∧ m.role = "outer")) →
        mkMultipolyFeature lib nt ways (rid, rd) = none)
    ∧ (∀ f, mkMultipolyFeature lib nt ways (rid, rd) = some f →
        ∃ ow rest g, outerWays ways rd.members = ow :: rest
          ∧ lib.mkPolygon (resolve nt ow.nodes) = some g ∧ lib.isValid g = true
          ∧ f = featureData rid (FVal.polyv g) rd.tags)
    ∧ (∀ (m : RelMember) (wd : WayData),
        rd.members.find? (fun m2 => m2.mtype == some "way"
          && (alookup m2.ref ways).isSome && m2.role == "outer") = some m →
        alookup m.ref ways = some wd →
        (outerWays ways rd.members).head? = some wd)
    ∧ (∀ (r : Int × RelData) (rest : List (Int × RelData)),
        multipolygonsData lib nt ways (r :: rest)
          = (mkMultipolyFeature lib nt ways r).toList ++ multipolygonsData lib nt ways rest) := by
  refine ⟨?_, ?_, ?_, ?_⟩
  · intro hno
    unfold mkMultipolyFeature
    split
    · rfl
    · rw [outerWays_eq_nil_of_no_outer ways rd.members hno]
  · intro f hsome
    exact mkMultipolyFeature_inv lib nt ways (rid, rd) f hsome
  · intro m wd hfind hwd
    exact outerWays_head_of_find ways rd.members m wd hfind hwd
  · intro r rest
    cases h : mkMultipolyFeature lib nt ways r with
    | none => simp [multipolygonsData, List.filterMap_cons, h]
    | some f => simp [multipolygonsData, List.filterMap_cons, h]

/-- C9, witness: a multipolygon relation with only an inner-role member
produces no polygon feature. -/
theorem multipolygon_outer_selection_witness :
    mkMultipolyFeature libList ntTriangle waysTriangle (6, rdNoOuter) = none :=
  (multipolygon_outer_selection (List Coord) libList ntTriangle waysTriangle 6 rdNoOuter).1
    (by decide)

theorem alookup_append {κ α : Type} [BEq κ] (k : κ) (l1 l2 : List (κ × α)) :
    alookup k (l1 ++ l2) = match alookup k l1 with
      | some v => some v
      | none => alookup k l2 := by
  induction l1 with
  | nil => rfl
  | cons p rest ih =>
    by_cases hp : p.1 == k
    · simp [alookup, hp]
    · simp [alookup, hp, ih]

theorem fileBranchBase_no_graph (osmData : List (String × DF)) (b : List (String × DF))
    (h : fileBranchBase osmData = some b) : alookup "roads_graph" b = none := by
  unfold fileBranchBase at h
  cases hw : alookup "ways" osmData with
  | none =>
    simp only [hw] at h
    obtain rfl : ([] : List (String × DF)) = b := Option.some.inj h
    rfl
  | some ways =>
    simp only [hw] at h
    cases hp : alookup "polygons" osmData with
    | none =>
      simp only [hp] at h
      exact absurd h (by simp)
    | some polys =>
      simp only [hp] at h
      split at h
      · obtain rfl := Option.some.inj h
        simp [alookup, show (("roads" : String) == "roads_graph") = false from by decide,
          show (("buildings" : String) == "roads_graph") = false from by decide]
      · split at h
        · obtain rfl := Option.some.inj h
          simp [alookup, show (("roads" : String) == "roads_graph") = false from by decide,
            show (("buildings" : String) == "roads_graph") = false from by decide]
        · obtain rfl := Option.some.inj h
          simp [alookup, show (("roads" : String) == "roads_graph") = false from by decide]

theorem load_osm_file_branch_no_graph (osmData : List (String × DF)) (b : List (String × DF))
    (h : load_osm_file_branch osmData = some b) : alookup "roads_graph" b = none := by
  unfold load_osm_file_branch at h
  cases hb : fileBranchBase osmData with
  | none =>
    simp only [hb] at h
    exact absurd h (by simp)
  | some result =>
    simp only [hb] at h
    by_cases hpe : (fileBranchPoisData osmData).isEmpty = true
    · rw [if_pos hpe] at h
      obtain rfl := Option.some.inj h
      exact fileBranchBase_no_graph osmData result hb
    · rw [if_neg hpe] at h
      obtain rfl := Option.some.inj h
      rw [alookup_append]
      rw [fileBranchBase_no_graph osmData result hb]
      simp [alookup, show (("pois" : String) == "roads_graph") = false from by decide]

theorem extract_layers_roads_eq (bundle : List (String × DF)) (wa wp : List String) :
    (extract_layers bundle wa wp).roads
      = match alookup "roads_graph" bundle with
        | none => none
        | some edges =>
          some (if (["highway", "name", "oneway", "length", "maxspeed"].filter
                  (fun c => edges.hasCol c)).isEmpty
            then edges.select ["geometry"]
            else edges.select
              ((["highway", "name", "oneway", "length", "maxspeed"].filter
                  (fun c => edges.hasCol c)) ++ ["geometry"])) := rfl

/-- C1, counterexample: a bundle produced by the file acquisition path
stores its line features under the key `roads`, while `extract_layers`
reads roads only from `roads_graph` — so a file-derived bundle whose
every line feature carries a non-empty `highway` attribute still yields
no roads layer at all. -/
theorem roads_layer_file_path_cex :
    load_osm_file_branch osmDataC1 = some bundleC1
    ∧ alookup "roads" bundleC1 = some waysDFC1
    ∧ waysDFC1.rows.all (fun r => (r.get "highway").notna) = true
    ∧ waysDFC1.rows ≠ []
    ∧ (extract_layers bundleC1 [] []).roads = none := by
  decide

/-- C1, amended: `extract_layers` builds the roads layer only from a
`roads_graph` entry, the shape produced by the network acquisition
path: every edge row (in particular every one with a non-empty
`highway` attribute) is retained, with attributes restricted to the
allow-list columns present plus geometry.  A bundle without a
`roads_graph` entry — which includes every bundle the file acquisition
path can produce, since that path stores its line features under
`roads` — yields no roads layer (`None`): the classifier is not
agnostic to the acquisition path for roads. -/
theorem roads_layer_acquisition (bundle : List (String × DF)) (wa wp : List String) :
    (∀ edges, alookup "roads_graph" bundle = some edges →
        ((extract_layers bundle wa wp).roads
          = some (if (["highway", "name", "oneway", "length", "maxspeed"].filter
                    (fun c => edges.hasCol c)).isEmpty
              then edges.select ["geometry"]
              else edges.select
                ((["highway", "name", "oneway", "length", "maxspeed"].filter
                    (fun c => edges.hasCol c)) ++ ["geometry"])))
        ∧ (∀ r ∈ edges.rows, ∀ df, (extract_layers bundle wa wp).roads = some df →
              r.select df.cols ∈ df.rows))
    ∧ (alookup "roads_graph" bundle = none → (extract_layers bundle wa wp).roads = none)
    ∧ (∀ osmData b, load_osm_file_branch osmData = some b →
          alookup "roads_graph" b = none ∧ (extract_layers b wa wp).roads = none) := by
  refine ⟨?_, ?_, ?_⟩
  · intro edges heq
    constructor
    · rw [extract_layers_roads_eq, heq]
    · intro r hr df hdf
      rw [extract_layers_roads_eq, heq] at hdf
      obtain rfl := Option.some.inj hdf
      by_cases hke : (["highway", "name", "oneway", "length", "maxspeed"].filter
          (fun c => edges.hasCol c)).isEmpty = true
      · rw [if_pos hke]
        simp only [DF.select]
        exact List.mem_map_of_mem _ hr
      · rw [if_neg hke]
        simp only [DF.select]
        exact List.mem_map_of_mem _ hr
  · intro heq
    rw [extract_layers_roads_eq, heq]
  · intro osmData b hb
    have h1 := load_osm_file_branch_no_graph osmData b hb
    exact ⟨h1, by rw [extract_layers_roads_eq, h1]⟩

/-- C1, witness: the network-path bundle yields the allow-listed edge
frame; the file-path bundle of the counterexample yields no roads
layer. -/
theorem roads_layer_acquisition_witness :
    ((extract_layers [("roads_graph", edgesC1)] [] []).roads
        = some (edgesC1.select ["highway", "name", "geometry"]))
    ∧ alookup "roads_graph" bundleC1 = none
    ∧ (extract_layers bundleC1 [] []).roads = none := by
  refine ⟨?_, (roads_layer_acquisition bundleC1 [] []).2.2 osmDataC1 bundleC1 (by decide)⟩
  have h := ((roads_layer_acquisition [("roads_graph", edgesC1)] [] []).1 edgesC1 rfl).1
  rw [h]
  decide

theorem rowGet_dinsert_self (r : Row) (c : String) (v : Val) :
    Row.get (dinsert c v r) c = v := by
  unfold Row.get
  rw [alookup_dinsert_self]
  rfl

theorem rowGet_dinsert_ne (r : Row) (c c2 : String) (v : Val) (h : c2 ≠ c) :
    Row.get (dinsert c v r) c2 = Row.get r c2 := by
  unfold Row.get
  rw [alookup_dinsert_ne c c2 v r h]

theorem labelRow_eq (r : Row) (key : String) :
    Row.select (dinsert "label" (Val.str key) r) ["label", "geometry"]
      = [("label", Val.str key), ("geometry", Row.get r "geometry")] := by
  unfold Row.select
  simp only [List.map]
  rw [rowGet_dinsert_self, rowGet_dinsert_ne r "label" "geometry" (Val.str key) (by decide)]

theorem poisOf_foldl_not_mem (p : DF) (key : String) :
    ∀ (wp : List String) (acc : List (String × DF)), key ∉ wp →
      alookup key (wp.foldl (poisAccum p) acc) = alookup key acc := by
  intro wp
  induction wp with
  | nil => intro acc _; rfl
  | cons k0 rest ih =>
    intro acc h
    have hne : key ≠ k0 := fun he => h (by simp [he])
    have hrest : key ∉ rest := fun hm => h (by simp [hm])
    simp only [List.foldl_cons]
    rw [ih (poisAccum p acc k0) hrest]
    cases hs : poisStep p k0 with
    | none => unfold poisAccum; rw [hs]
    | some df =>
      unfold poisAccum
      rw [hs]
      exact alookup_dinsert_ne k0 key df acc hne

theorem poisOf_lookup (p : DF) (wp : List String) (key : String)
    (hmem : key ∈ wp) (hnd : wp.Nodup) :
    alookup key (poisOf p wp) = poisStep p key := by
  unfold poisOf
  suffices h : ∀ (wp2 : List String) (acc : List (String × DF)), key ∈ wp2 → wp2.Nodup →
      alookup key acc = none →
      alookup key (wp2.foldl (poisAccum p) acc) = poisStep p key from
    h wp [] hmem hnd rfl
  intro wp2
  induction wp2 with
  | nil =>
    intro acc hm _ _
    simp at hm
  | cons k0 rest ih =>
    intro acc hm hnd2 hacc
    rcases List.mem_cons.mp hm with rfl | hmr
    · have hknotin : key ∉ rest := (List.nodup_cons.mp hnd2).1
      simp only [List.foldl_cons]
      rw [poisOf_foldl_not_mem p key rest (poisAccum p acc key) hknotin]
      cases hs : poisStep p key with
      | none =>
        unfold poisAccum
        rw [hs]
        exact hacc
      | some df =>
        unfold poisAccum
        rw [hs]
        exact alookup_dinsert_self key df acc
    · have hk0ne : k0 ≠ key := fun he => (List.nodup_cons.mp hnd2).1 (he ▸ hmr)
      simp only [List.foldl_cons]
      apply ih (poisAccum p acc k0) hmr (List.nodup_cons.mp hnd2).2
      cases hs : poisStep p k0 with
      | none =>
        unfold poisAccum
        rw [hs]
        exact hacc
      | some df =>
        unfold poisAccum
        rw [hs]
        rw [alookup_dinsert_ne k0 key df acc (fun he => hk0ne he.symm)]
        exact hacc

theorem extract_layers_pois_eq (bundle : List (String × DF)) (wa wp : List String) :
    (extract_layers bundle wa wp).pois
      = match alookup "pois" bundle with
        | none => []
        | some p0 => poisOf (dropNaGeom p0) wp := rfl

theorem poisFallbackPred_iff (r : Row) (key : String) :
    (Row.get r "amenity" == Val.str key || Row.get r "shop" == Val.str key) = true
      ↔ (Row.get r "amenity" = Val.str key ∨ Row.get r "shop" = Val.str key) := by
  simp [Bool.or_eq_true, beq_iff_eq]

theorem setCol_select_rows (X : DF) (c : String) (v : Val) (cs : List String) :
    ((X.setCol c v).select cs).rows = X.rows.map (fun r => Row.select (dinsert c v r) cs) := by
  simp [DF.setCol, DF.select, List.map_map]

theorem poisStep_eq_none_of_no_fallback (q : DF) (key : String)
    (hcol : q.hasCol key = false)
    (hall : ∀ r ∈ q.rows,
      ¬(Row.get r "amenity" = Val.str key ∨ Row.get r "shop" = Val.str key)) :
    poisStep q key = none := by
  unfold poisStep
  have hfil : q.rows.filter
      (fun r => Row.get r "amenity" == Val.str key || Row.get r "shop" == Val.str key) = [] := by
    rw [List.filter_eq_nil_iff]
    intro r hr hb
    exact hall r hr ((poisFallbackPred_iff r key).mp hb)
  simp [hcol, DF.filterRows, DF.isEmpty, hfil]

theorem poisStep_some_fallback (q : DF) (key : String) (df : DF)
    (hcol : q.hasCol key = false)
    (hs : poisStep q key = some df) :
    df.cols = ["label", "geometry"]
    ∧ (∀ r ∈ q.rows, (Row.get r "amenity" = Val.str key ∨ Row.get r "shop" = Val.str key) →
        [("label", Val.str key), ("geometry", Row.get r "geometry")] ∈ df.rows)
    ∧ (∀ row ∈ df.rows, ∃ r, r ∈ q.rows
        ∧ (Row.get r "amenity" = Val.str key ∨ Row.get r "shop" = Val.str key)
        ∧ row = [("label", Val.str key), ("geometry", Row.get r "geometry")]) := by
  unfold poisStep at hs
  simp only [hcol, Bool.false_eq_true, if_false] at hs
  split at hs
  · exact absurd hs (by simp)
  · obtain rfl := Option.some.inj hs
    refine ⟨rfl, ?_, ?_⟩
    · intro r hr hpred
      have hb := (poisFallbackPred_iff r key).mpr hpred
      have hsub : r ∈ (q.filterRows
          (fun r => Row.get r "amenity" == Val.str key || Row.get r "shop" == Val.str key)).rows :=
        List.mem_filter.mpr ⟨hr, hb⟩
      rw [setCol_select_rows, ← labelRow_eq r key]
      exact List.mem_map_of_mem _ hsub
    · intro row hrow
      rw [setCol_select_rows] at hrow
      obtain ⟨r, hrsub, hrow⟩ := List.mem_map.mp hrow
      have hm := List.mem_filter.mp hrsub
      exact ⟨r, hm.1, (poisFallbackPred_iff r key).mp hm.2, by rw [← hrow, labelRow_eq]⟩

theorem poisStep_some_boolean (q : DF) (key : String) (df : DF)
    (hcol : q.hasCol key = true)
    (hs : poisStep q key = some df) :
    df.cols = [key, "geometry"]
    ∧ (∀ r ∈ q.rows, truthy (Row.get r key) = true → Row.select r [key, "geometry"] ∈ df.rows)
    ∧ (∀ row ∈ df.rows, ∃ r, r ∈ q.rows ∧ truthy (Row.get r key) = true
        ∧ row = Row.select r [key, "geometry"]) := by
  unfold poisStep at hs
  simp only [hcol, if_true] at hs
  split at hs
  · exact absurd hs (by simp)
  · obtain rfl := Option.some.inj hs
    refine ⟨rfl, ?_, ?_⟩
    · intro r hr ht
      exact List.mem_map_of_mem _ (List.mem_filter.mpr ⟨hr, ht⟩)
    · intro row hrow
      obtain ⟨r, hrsub, hrow⟩ := List.mem_map.mp hrow
      have hm := List.mem_filter.mp hrsub
      exact ⟨r, hm.1, hm.2, hrow.symm⟩

theorem poisStep_eq_none_of_no_truthy (q : DF) (key : String)
    (hcol : q.hasCol key = true)
    (hall : ∀ r ∈ q.rows, truthy (Row.get r key) = false) :
    poisStep q key = none := by
  unfold poisStep
  have hfil : q.rows.filter (fun r => truthy (Row.get r key)) = [] := by
    rw [List.filter_eq_nil_iff]
    intro r hr
    simp [hall r hr]
  simp [hcol, DF.filterRows, DF.isEmpty, hfil]

/-- C6: per requested POI key, the generic POI filter acts exactly as
the dual-path rule describes.  When the bundle carries the key as an
attribute column, `pois[key]` holds precisely the geometry-bearing
features whose value under that key is a boolean word
(`true`/`yes`/`1`, case-insensitively), each reduced to the attributes
(key, geometry); when the key is no column, it holds precisely the
features matching `amenity == key` or `shop == key`, each carried under
a synthesized `label` attribute equal to the key; and a key matching no
feature is absent from the mapping. -/
theorem pois_dual_matching (bundle : List (String × DF)) (p : DF) (wa wp : List String)
    (key : String) (hp : alookup "pois" bundle = some p) (hkey : key ∈ wp) (hnd : wp.Nodup) :
    alookup key (extract_layers bundle wa wp).pois = poisStep (dropNaGeom p) key
    ∧ (p.hasCol key = false →
        ((∀ r ∈ (dropNaGeom p).rows,
            ¬(Row.get r "amenity" = Val.str key ∨ Row.get r "shop" = Val.str key)) →
          alookup key (extract_layers bundle wa wp).pois = none)
        ∧ (∀ df, alookup key (extract_layers bundle wa wp).pois = some df →
            df.cols = ["label", "geometry"]
            ∧ (∀ r ∈ (dropNaGeom p).rows,
                (Row.get r "amenity" = Val.str key ∨ Row.get r "shop" = Val.str key) →
                [("label", Val.str key), ("geometry", Row.get r "geometry")] ∈ df.rows)
            ∧ (∀ row ∈ df.rows, ∃ r, r ∈ (dropNaGeom p).rows
                ∧ (Row.get r "amenity" = Val.str key ∨ Row.get r "shop" = Val.str key)
                ∧ row = [("label", Val.str key), ("geometry", Row.get r "geometry")])))
    ∧ (p.hasCol key = true →
        ((∀ r ∈ (dropNaGeom p).rows, truthy (Row.get r key) = false) →
          alookup key (extract_layers bundle wa wp).pois = none)
        ∧ (∀ df, alookup key (extract_layers bundle wa wp).pois = some df →
            df.cols = [key, "geometry"]
            ∧ (∀ r ∈ (dropNaGeom p).rows, truthy (Row.get r key) = true →
                Row.select r [key, "geometry"] ∈ df.rows)
            ∧ (∀ row ∈ df.rows, ∃ r, r ∈ (dropNaGeom p).rows ∧ truthy (Row.get r key) = true
                ∧ row = Row.select r [key, "geometry"]))) := by
  have hA : alookup key (extract_layers bundle wa wp).pois = poisStep (dropNaGeom p) key := by
    rw [extract_layers_pois_eq, hp]
    exact poisOf_lookup (dropNaGeom p) wp key hkey hnd
  have hColEq : (dropNaGeom p).hasCol key = p.hasCol key := rfl
  refine ⟨hA, ?_, ?_⟩
  · intro hcol
    constructor
    · intro hall
      rw [hA]
      exact poisStep_eq_none_of_no_fallback (dropNaGeom p) key (hColEq.trans hcol) hall
    · intro df hdf
      rw [hA] at hdf
      exact poisStep_some_fallback (dropNaGeom p) key df (hColEq.trans hcol) hdf
  · intro hcol
    constructor
    · intro hall
      rw [hA]
      exact poisStep_eq_none_of_no_truthy (dropNaGeom p) key (hColEq.trans hcol) hall
    · intro df hdf
      rw [hA] at hdf
      exact poisStep_some_boolean (dropNaGeom p) key df (hColEq.trans hcol) hdf

/-- C6, witness: on the fake bundle of the unit test — one feature
with `shop=supermarket`, no boolean `supermarket` or `bank` column —
the supermarket entry is governed by the fallback path and `bank`,
matching nothing, is absent. -/
theorem pois_dual_matching_witness :
    alookup "supermarket" (extract_layers bundleC6 [] ["bank", "supermarket"]).pois
      = poisStep (dropNaGeom poisDFC6) "supermarket"
    ∧ alookup "bank" (extract_layers bundleC6 [] ["bank", "supermarket"]).pois = none := by
  constructor
  · exact (pois_dual_matching bundleC6 poisDFC6 [] ["bank", "supermarket"] "supermarket"
      rfl (by decide) (by decide)).1
  · exact ((pois_dual_matching bundleC6 poisDFC6 [] ["bank", "supermarket"] "bank"
      rfl (by decide) (by decide)).2.1 (by decide)).1 (by decide)

/-- C4, counterexample: providing two inputs at once (bounding box and
place, or all three) does not fail — the load silently uses the
highest-priority input (file, then bounding box, then place), so
"exactly one must be provided" is not enforced by the code. -/
theorem load_two_inputs_cex :
    load_osm (fun _ : String => (0 : Nat)) (fun _ => 1) (fun _ => 2)
        (some (0, 0, 1, 1)) (some "Berlin") none
      = (Except.ok 1, [IOEvent.netFetchBBox (0, 0, 1, 1)])
    ∧ load_osm (fun _ : String => (0 : Nat)) (fun _ => 1) (fun _ => 2)
        (some (0, 0, 1, 1)) (some "Berlin") (some "a.osm")
      = (Except.ok 0, [IOEvent.parseOsmFile "a.osm"]) :=
  ⟨rfl, rfl⟩

/-- C4, amended: at least one of file path, bounding box, or place must
be provided: providing none fails with the no-input error before any
I/O event is recorded, both on the direct path and on the cached path
(where the key derivation raises first); when several inputs are given,
the file takes precedence, then the bounding box, then the place. -/
theorem load_input_validation (β : Type) (parseF : String → β) (fetchB : BBox → β)
    (fetchP : String → β) (fs : FileSys) (cache : CacheDir β) (now ttl : Nat) :
    load_osm parseF fetchB fetchP none none none
      = (Except.error "Either bbox, place, or osm_file must be provided.", [])
    ∧ load_osm_cached parseF fetchB fetchP fs cache now none none none true ttl
      = (Except.error "No input specified", cache, [])
    ∧ load_osm_cached parseF fetchB fetchP fs cache now none none none false ttl
      = (Except.error "Either bbox, place, or osm_file must be provided.", cache, [])
    ∧ (∀ b p f, load_osm parseF fetchB fetchP b p (some f)
        = (Except.ok (parseF f), [IOEvent.parseOsmFile f]))
    ∧ (∀ b p, load_osm parseF fetchB fetchP (some b) p none
        = (Except.ok (fetchB b), [IOEvent.netFetchBBox b]))
    ∧ (∀ p, load_osm parseF fetchB fetchP none (some p) none
        = (Except.ok (fetchP p), [IOEvent.netFetchPlace p])) :=
  ⟨rfl, rfl, rfl, fun _ _ _ => rfl, fun _ _ => rfl, fun _ => rfl⟩

/-- C3, counterexample: the key data hashed for a file source
interpolates the path string exactly as passed, not the absolute path:
under working directory `/w`, loading `a.osm` hashes the pair
(`a.osm`, 5) while the spec-side derivation hashes (`/w/a.osm`, 5), and
the two spellings of the same file produce different keys. -/
theorem cache_key_literal_path_cex :
    getCacheKey fsC3 none none (some "a.osm")
      = Except.ok (CacheKeyData.fileKey "a.osm" (some 5))
    ∧ getCacheKey fsC3 none none (some "/w/a.osm")
      = Except.ok (CacheKeyData.fileKey "/w/a.osm" (some 5))
    ∧ cacheKeyDataSpec fsC3 "a.osm" = CacheKeyData.fileKey "/w/a.osm" (some 5)
    ∧ CacheKeyData.fileKey "a.osm" (some 5) ≠ CacheKeyData.fileKey "/w/a.osm" (some 5)
    ∧ absolutize fsC3.cwd "a.osm" = absolutize fsC3.cwd "/w/a.osm" :=
  ⟨rfl, rfl, rfl, by decide, rfl⟩

/-- C3, amended: the file cache key hashes the pair (path string as
passed by the caller, last modification time).  Consequently loading
the same unmodified file twice under the same spelling uses one key —
the first call parses once and the second call is answered from the
cache with the identical bundle and no parse — while a change of the
modification time yields a different key and a second parse call. -/
theorem cache_file_roundtrip (β : Type) (parseF : String → β) (fetchB : BBox → β)
    (fetchP : String → β) (fs : FileSys) (f : String) (m : Nat) (cache0 : CacheDir β)
    (now1 now2 ttl : Nat)
    (h1 : fs.mtimeOf f = some m)
    (h2 : alookup (CacheKeyData.fileKey f (some m)) cache0 = none)
    (h3 : ¬ ttl * 3600 < now2 - now1) :
    getCacheKey fs none none (some f) = Except.ok (CacheKeyData.fileKey f (some m))
    ∧ (load_osm_cached parseF fetchB fetchP fs cache0 now1 none none (some f) true ttl).1
        = Except.ok (parseF f)
    ∧ parseCalls (load_osm_cached parseF fetchB fetchP fs cache0 now1
        none none (some f) true ttl).2.2 = 1
    ∧ (load_osm_cached parseF fetchB fetchP fs
          (load_osm_cached parseF fetchB fetchP fs cache0 now1 none none (some f) true ttl).2.1
          now2 none none (some f) true ttl).1
        = Except.ok (parseF f)
    ∧ parseCalls (load_osm_cached parseF fetchB fetchP fs
          (load_osm_cached parseF fetchB fetchP fs cache0 now1 none none (some f) true ttl).2.1
          now2 none none (some f) true ttl).2.2 = 0
    ∧ (∀ (fs2 : FileSys) (m2 : Nat), fs2.mtimeOf f = some m2 → m2 ≠ m →
        alookup (CacheKeyData.fileKey f (some m2)) cache0 = none →
        getCacheKey fs2 none none (some f) ≠ getCacheKey fs none none (some f)
        ∧ parseCalls (load_osm_cached parseF fetchB fetchP fs2
            (load_osm_cached parseF fetchB fetchP fs cache0 now1 none none (some f) true ttl).2.1
            now2 none none (some f) true ttl).2.2 = 1) := by
  have hkey : getCacheKey fs none none (some f)
      = Except.ok (CacheKeyData.fileKey f (some m)) := by
    simp [getCacheKey, h1]
  have hlf1 : loadFromCache cache0 (CacheKeyData.fileKey f (some m)) now1 ttl
      = (cache0, none) := by
    simp [loadFromCache, h2]
  have hr1 : load_osm_cached parseF fetchB fetchP fs cache0 now1 none none (some f) true ttl
      = (Except.ok (parseF f),
         dinsert (CacheKeyData.fileKey f (some m)) ⟨now1, parseF f⟩ cache0,
         [IOEvent.cacheRead (CacheKeyData.fileKey f (some m)), IOEvent.parseOsmFile f,
          IOEvent.cacheWrite (CacheKeyData.fileKey f (some m))]) := by
    simp [load_osm_cached, hkey, hlf1, load_osm]
  have hlf2 : loadFromCache
      (dinsert (CacheKeyData.fileKey f (some m)) ⟨now1, parseF f⟩ cache0)
      (CacheKeyData.fileKey f (some m)) now2 ttl
      = (dinsert (CacheKeyData.fileKey f (some m)) ⟨now1, parseF f⟩ cache0,
         some (parseF f)) := by
    unfold loadFromCache
    rw [alookup_dinsert_self]
    simp [h3]
  refine ⟨hkey, ?_, ?_, ?_, ?_, ?_⟩
  · rw [hr1]
  · rw [hr1]
    rfl
  · rw [hr1]
    simp [load_osm_cached, hkey, hlf2]
  · rw [hr1]
    simp [load_osm_cached, hkey, hlf2, parseCalls]
  · intro fs2 m2 hm2 hne hc2
    have hkne : CacheKeyData.fileKey f (some m2) ≠ CacheKeyData.fileKey f (some m) :=
      fun he => hne (by simpa using he)
    have hkey2 : getCacheKey fs2 none none (some f)
        = Except.ok (CacheKeyData.fileKey f (some m2)) := by
      simp [getCacheKey, hm2]
    constructor
    · rw [hkey2, hkey]
      simp [hne]
    · have hlk : alookup (CacheKeyData.fileKey f (some m2))
          (dinsert (CacheKeyData.fileKey f (some m)) ⟨now1, parseF f⟩ cache0) = none := by
        rw [alookup_dinsert_ne _ _ _ _ hkne]
        exact hc2
      have hlf3 : loadFromCache
          (dinsert (CacheKeyData.fileKey f (some m)) ⟨now1, parseF f⟩ cache0)
          (CacheKeyData.fileKey f (some m2)) now2 ttl
          = (dinsert (CacheKeyData.fileKey f (some m)) ⟨now1, parseF f⟩ cache0, none) := by
        simp [loadFromCache, hlk]
      rw [hr1]
      simp [load_osm_cached, hkey2, hlf3, load_osm, parseCalls]

/-- C3, witness: loading `a.osm` twice without modification parses
once and then hits the cache. -/
theorem cache_file_roundtrip_witness :
    parseCalls (load_osm_cached (fun _ : String => (42 : Nat)) (fun _ => 0) (fun _ => 0)
        fsC3 [] 0 none none (some "a.osm") true 24).2.2 = 1
    ∧ parseCalls (load_osm_cached (fun _ : String => (42 : Nat)) (fun _ => 0) (fun _ => 0)
        fsC3 (load_osm_cached (fun _ : String => (42 : Nat)) (fun _ => 0) (fun _ => 0)
          fsC3 [] 0 none none (some "a.osm") true 24).2.1
        3600 none none (some "a.osm") true 24).2.2 = 0 := by
  have h := cache_file_roundtrip Nat (fun _ => 42) (fun _ => 0) (fun _ => 0) fsC3 "a.osm" 5 []
    0 3600 24 rfl rfl (by decide)
  exact ⟨h.2.2.1, h.2.2.2.2.1⟩

/-- Store extension: the second store is the first with frames appended
at the end and possibly some of the appended slots overwritten — the
caller region is untouched. -/
def StExtends (st st2 : Store) : Prop := ∃ l, st2 = st ++ l

theorem stExtends_refl (st : Store) : StExtends st st := ⟨[], by simp⟩

theorem stExtends_trans {st1 st2 st3 : Store} (h1 : StExtends st1 st2)
    (h2 : StExtends st2 st3) : StExtends st1 st3 := by
  obtain ⟨l1, rfl⟩ := h1
  obtain ⟨l2, rfl⟩ := h2
  exact ⟨l1 ++ l2, by simp⟩

theorem stExtends_length {st st2 : Store} (h : StExtends st st2) :
    st.length ≤ st2.length := by
  obtain ⟨l, rfl⟩ := h
  simp

theorem stExtends_alloc (st : Store) (d : DF) : StExtends st (st.alloc d).1 := ⟨[d], rfl⟩

theorem stExtends_writeAt {st st2 : Store} (h : StExtends st st2) (r : Nat) (d : DF)
    (hr : st.length ≤ r) : StExtends st (st2.writeAt r d) := by
  obtain ⟨l, rfl⟩ := h
  exact ⟨l.set (r - st.length) d, List.set_append_right r d hr⟩

theorem stExtends_take {st st2 : Store} (h : StExtends st st2) :
    st2.take st.length = st := by
  obtain ⟨l, rfl⟩ := h
  exact List.take_left st l

theorem mem_dinsert {κ α : Type} [BEq κ] (k : κ) (v : α) (l : List (κ × α)) :
    ∀ kv ∈ dinsert k v l, kv.2 = v ∨ kv ∈ l := by
  induction l with
  | nil =>
    intro kv h
    simp only [dinsert, List.mem_singleton] at h
    left
    rw [h]
  | cons p rest ih =>
    intro kv h
    unfold dinsert at h
    split at h
    · rcases List.mem_cons.mp h with rfl | hm
      · left; rfl
      · right; exact List.mem_cons_of_mem p hm
    · rcases List.mem_cons.mp h with rfl | hm
      · right; exact List.mem_cons_self _ _
      · rcases ih kv hm with hv | hm2
        · left; exact hv
        · right; exact List.mem_cons_of_mem p hm2

theorem foldl_stExtends_fresh {α : Type} (n : Nat)
    (g : (Store × List (String × Nat)) → α → Store × List (String × Nat))
    (hg : ∀ acc x, n ≤ acc.1.length → (∀ kr ∈ acc.2, n ≤ kr.2) →
        StExtends acc.1 (g acc x).1 ∧ (∀ kr ∈ (g acc x).2, n ≤ kr.2))
    (xs : List α) :
    ∀ init : Store × List (String × Nat), n ≤ init.1.length → (∀ kr ∈ init.2, n ≤ kr.2) →
      StExtends init.1 (xs.foldl g init).1 ∧ (∀ kr ∈ (xs.foldl g init).2, n ≤ kr.2) := by
  induction xs with
  | nil =>
    intro init _ h2
    exact ⟨stExtends_refl init.1, h2⟩
  | cons x rest ih =>
    intro init h1 h2
    obtain ⟨hex, hfr⟩ := hg init x h1 h2
    have h1b : n ≤ (g init x).1.length := le_trans h1 (stExtends_length hex)
    obtain ⟨hex2, hfr2⟩ := ih (g init x) h1b hfr
    exact ⟨stExtends_trans hex hex2, hfr2⟩

theorem roadsSt_extends (bundle : List (String × Nat)) (st : Store) :
    StExtends st (roadsSt bundle st).1 ∧ ∀ r ∈ (roadsSt bundle st).2, st.length ≤ r := by
  unfold roadsSt
  cases alookup "roads_graph" bundle with
  | none => exact ⟨stExtends_refl st, by simp⟩
  | some rg =>
    simp only [Store.alloc]
    refine ⟨stExtends_trans (stExtends_alloc st _) (stExtends_alloc _ _), ?_⟩
    intro r hr
    simp at hr
    subst hr
    simp

theorem buildingsSt_extends (bundle : List (String × Nat)) (st : Store) :
    StExtends st (buildingsSt bundle st).1 ∧ ∀ r ∈ (buildingsSt bundle st).2, st.length ≤ r := by
  unfold buildingsSt
  cases alookup "buildings" bundle with
  | none => exact ⟨stExtends_refl st, by simp⟩
  | some rb =>
    simp only [Store.alloc]
    refine ⟨stExtends_trans (stExtends_alloc st _) (stExtends_trans (stExtends_alloc _ _)
      (stExtends_trans (stExtends_alloc _ _) (stExtends_alloc _ _))), ?_⟩
    intro r hr
    simp at hr
    subst hr
    simp

theorem amenityLoopSt_extends (n : Nat) (p2 : Nat) (acc : Store × List (String × Nat))
    (a : String) (h1 : n ≤ acc.1.length) (h2 : ∀ kr ∈ acc.2, n ≤ kr.2) :
    StExtends acc.1 (amenityLoopSt p2 acc a).1
    ∧ ∀ kr ∈ (amenityLoopSt p2 acc a).2, n ≤ kr.2 := by
  obtain ⟨st, m⟩ := acc
  unfold amenityLoopSt
  simp only [Store.alloc]
  split
  · exact ⟨stExtends_trans (stExtends_alloc st _) (stExtends_alloc _ _), h2⟩
  · constructor
    · exact stExtends_trans (stExtends_alloc st _) (stExtends_trans (stExtends_alloc _ _)
        (stExtends_alloc _ _))
    · intro kr hkr
      rcases mem_dinsert _ _ m kr hkr with hv | hm
      · rw [hv]
        simp at h1 ⊢
        omega
      · exact h2 kr hm

theorem poisLoopSt_extends (n : Nat) (p2 : Nat) (acc : Store × List (String × Nat))
    (key : String) (h1 : n ≤ acc.1.length) (h2 : ∀ kr ∈ acc.2, n ≤ kr.2) :
    StExtends acc.1 (poisLoopSt p2 acc key).1
    ∧ ∀ kr ∈ (poisLoopSt p2 acc key).2, n ≤ kr.2 := by
  obtain ⟨st, m⟩ := acc
  unfold poisLoopSt
  simp only [Store.alloc]
  split
  · split
    · exact ⟨stExtends_trans (stExtends_alloc st _) (stExtends_alloc _ _), h2⟩
    · constructor
      · exact stExtends_trans (stExtends_alloc st _) (stExtends_trans (stExtends_alloc _ _)
          (stExtends_alloc _ _))
      · intro kr hkr
        rcases mem_dinsert _ _ m kr hkr with hv | hm
        · rw [hv]
          simp at h1 ⊢
          omega
        · exact h2 kr hm
  · split
    · exact ⟨stExtends_trans (stExtends_alloc st _) (stExtends_alloc _ _), h2⟩
    · constructor
      · refine stExtends_trans
          (stExtends_writeAt
            (stExtends_trans (stExtends_alloc st _) (stExtends_alloc _ _)) _ _ ?_)
          (stExtends_alloc _ _)
        simp
      · intro kr hkr
        rcases mem_dinsert _ _ m kr hkr with hv | hm
        · rw [hv]
          simp [Store.writeAt] at h1 ⊢
          omega
        · exact h2 kr hm

theorem poisSectionSt_extends (n : Nat) (bundle : List (String × Nat)) (wa wp : List String)
    (st : Store) (hn : n ≤ st.length) :
    StExtends st (poisSectionSt bundle wa wp st).1
    ∧ (∀ kr ∈ (poisSectionSt bundle wa wp st).2.1, n ≤ kr.2)
    ∧ (∀ kr ∈ (poisSectionSt bundle wa wp st).2.2, n ≤ kr.2) := by
  unfold poisSectionSt
  cases alookup "pois" bundle with
  | none => exact ⟨stExtends_refl st, by simp, by simp⟩
  | some rp =>
    simp only [Store.alloc]
    have hn2 : n ≤ ((st ++ [dropNaGeom (st.deref rp)])
        ++ [(st ++ [dropNaGeom (st.deref rp)]).deref st.length]).length := by
      simp
      omega
    have hA := foldl_stExtends_fresh n (amenityLoopSt (st ++ [dropNaGeom (st.deref rp)]).length)
      (fun acc x h1 h2 => amenityLoopSt_extends n _ acc x h1 h2) wa
      ((st ++ [dropNaGeom (st.deref rp)])
        ++ [(st ++ [dropNaGeom (st.deref rp)]).deref st.length], [])
      hn2 (by simp)
    have hresA : StExtends ((st ++ [dropNaGeom (st.deref rp)])
          ++ [(st ++ [dropNaGeom (st.deref rp)]).deref st.length])
        (if (((st ++ [dropNaGeom (st.deref rp)])
              ++ [(st ++ [dropNaGeom (st.deref rp)]).deref st.length]).deref
              (st ++ [dropNaGeom (st.deref rp)]).length).hasCol "amenity"
          then wa.foldl (amenityLoopSt (st ++ [dropNaGeom (st.deref rp)]).length)
            ((st ++ [dropNaGeom (st.deref rp)])
              ++ [(st ++ [dropNaGeom (st.deref rp)]).deref st.length], [])
          else ((st ++ [dropNaGeom (st.deref rp)])
            ++ [(st ++ [dropNaGeom (st.deref rp)]).deref st.length], [])).1
        ∧ ∀ kr ∈ (if (((st ++ [dropNaGeom (st.deref rp)])
              ++ [(st ++ [dropNaGeom (st.deref rp)]).deref st.length]).deref
              (st ++ [dropNaGeom (st.deref rp)]).length).hasCol "amenity"
          then wa.foldl (amenityLoopSt (st ++ [dropNaGeom (st.deref rp)]).length)
            ((st ++ [dropNaGeom (st.deref rp)])
              ++ [(st ++ [dropNaGeom (st.deref rp)]).deref st.length], [])
          else ((st ++ [dropNaGeom (st.deref rp)])
            ++ [(st ++ [dropNaGeom (st.deref rp)]).deref st.length], [])).2, n ≤ kr.2 := by
      split
      · exact hA
      · exact ⟨stExtends_refl _, by simp⟩
    have hnr : n ≤ ((if (((st ++ [dropNaGeom (st.deref rp)])
              ++ [(st ++ [dropNaGeom (st.deref rp)]).deref st.length]).deref
              (st ++ [dropNaGeom (st.deref rp)]).length).hasCol "amenity"
          then wa.foldl (amenityLoopSt (st ++ [dropNaGeom (st.deref rp)]).length)
            ((st ++ [dropNaGeom (st.deref rp)])
              ++ [(st ++ [dropNaGeom (st.deref rp)]).deref st.length], [])
          else ((st ++ [dropNaGeom (st.deref rp)])
            ++ [(st ++ [dropNaGeom (st.deref rp)]).deref st.length], [])).1).length :=
      le_trans hn2 (stExtends_length hresA.1)
    have hP := foldl_stExtends_fresh n (poisLoopSt (st ++ [dropNaGeom (st.deref rp)]).length)
      (fun acc x h1 h2 => poisLoopSt_extends n _ acc x h1 h2) wp
      ((if (((st ++ [dropNaGeom (st.deref rp)])
              ++ [(st ++ [dropNaGeom (st.deref rp)]).deref st.length]).deref
              (st ++ [dropNaGeom (st.deref rp)]).length).hasCol "amenity"
          then wa.foldl (amenityLoopSt (st ++ [dropNaGeom (st.deref rp)]).length)
            ((st ++ [dropNaGeom (st.deref rp)])
              ++ [(st ++ [dropNaGeom (st.deref rp)]).deref st.length], [])
          else ((st ++ [dropNaGeom (st.deref rp)])
            ++ [(st ++ [dropNaGeom (st.deref rp)]).deref st.length], [])).1, [])
      hnr (by simp)
    refine ⟨?_, hresA.2, hP.2⟩
    exact stExtends_trans
      (stExtends_trans (stExtends_alloc st _) (stExtends_alloc _ _))
      (stExtends_trans hresA.1 hP.1)

theorem waterwaysSt_extends (bundle : List (String × Nat)) (st : Store) :
    StExtends st (waterwaysSt bundle st).1
    ∧ ∀ r ∈ (waterwaysSt bundle st).2, st.length ≤ r := by
  unfold waterwaysSt
  cases alookup "pois" bundle with
  | none => exact ⟨stExtends_refl st, by simp⟩
  | some rp =>
    simp only [Store.alloc]
    split
    · split
      · exact ⟨stExtends_trans (stExtends_alloc st _) (stExtends_trans (stExtends_alloc _ _)
          (stExtends_trans (stExtends_alloc _ _) (stExtends_alloc _ _))), by simp⟩
      · refine ⟨stExtends_trans (stExtends_alloc st _) (stExtends_trans (stExtends_alloc _ _)
          (stExtends_trans (stExtends_alloc _ _) (stExtends_trans (stExtends_alloc _ _)
            (stExtends_alloc _ _)))), ?_⟩
        intro r hr
        simp at hr
        subst hr
        simp
    · exact ⟨stExtends_trans (stExtends_alloc st _) (stExtends_alloc _ _), by simp⟩

theorem landuseLoopSt_extends (n : Nat) (l1 : Nat) (acc : Store × List (String × Nat))
    (v : Val) (h1 : n ≤ acc.1.length) (h2 : ∀ kr ∈ acc.2, n ≤ kr.2) :
    StExtends acc.1 (landuseLoopSt l1 acc v).1
    ∧ ∀ kr ∈ (landuseLoopSt l1 acc v).2, n ≤ kr.2 := by
  obtain ⟨st, m⟩ := acc
  unfold landuseLoopSt
  simp only [Store.alloc]
  split
  · split
    · exact ⟨stExtends_trans (stExtends_alloc st _) (stExtends_alloc _ _), h2⟩
    · constructor
      · exact stExtends_trans (stExtends_alloc st _) (stExtends_trans (stExtends_alloc _ _)
          (stExtends_alloc _ _))
      · intro kr hkr
        rcases mem_dinsert _ _ m kr hkr with hv | hm
        · rw [hv]
          simp at h1 ⊢
          omega
        · exact h2 kr hm
  · exact ⟨stExtends_refl st, h2⟩

theorem landuseSt_extends (n : Nat) (bundle : List (String × Nat)) (st : Store)
    (hn : n ≤ st.length) :
    StExtends st (landuseSt bundle st).1 ∧ ∀ kr ∈ (landuseSt bundle st).2, n ≤ kr.2 := by
  unfold landuseSt
  cases alookup "pois" bundle with
  | none => exact ⟨stExtends_refl st, by simp⟩
  | some rp =>
    simp only [Store.alloc]
    split
    · split
      · exact ⟨stExtends_trans (stExtends_alloc st _) (stExtends_trans (stExtends_alloc _ _)
          (stExtends_alloc _ _)), by simp⟩
      · refine ⟨stExtends_trans
          (stExtends_trans (stExtends_alloc st _)
            (stExtends_trans (stExtends_alloc _ _) (stExtends_alloc _ _)))
          (foldl_stExtends_fresh n _
            (fun acc x h1 h2 => landuseLoopSt_extends n _ acc x h1 h2) _ _
            (by simp; omega) (by simp)).1,
          (foldl_stExtends_fresh n _
            (fun acc x h1 h2 => landuseLoopSt_extends n _ acc x h1 h2) _ _
            (by simp; omega) (by simp)).2⟩
    · exact ⟨stExtends_trans (stExtends_alloc st _) (stExtends_alloc _ _), by simp⟩

theorem optAll_of_mem {o : Option Nat} {n : Nat} (h : ∀ r ∈ o, n ≤ r) :
    o.all (fun r => n ≤ r) = true := by
  cases o with
  | none => rfl
  | some r => simpa using h r rfl

theorem listAll_of_mem {l : List (String × Nat)} {n : Nat} (h : ∀ kr ∈ l, n ≤ kr.2) :
    l.all (fun kr => n ≤ kr.2) = true := by
  rw [List.all_eq_true]
  intro kr hkr
  simpa using h kr hkr

/-- C10: the classifier does not modify its input.  On the
store-instrumented rendering of `extract_layers` — where every pandas
object is a store slot, every frame-creating expression allocates, and
the one in-place statement `subset["label"] = key` overwrites its slot
— the entire pre-call store is returned unchanged (so the input bundle
and every feature collection it refers to hold exactly the rows,
columns and values they held before), and every layer handed back
lives in a freshly allocated slot, never in a slot of the input
store. -/
theorem extract_layers_frame_effect (bundle : List (String × Nat)) (wa wp : List String)
    (st : Store) :
    (extract_layers_st bundle wa wp st).1.take st.length = st
    ∧ st.length ≤ (extract_layers_st bundle wa wp st).1.length
    ∧ refsFresh st.length (extract_layers_st bundle wa wp st).2 = true := by
  unfold extract_layers_st
  obtain ⟨hex1, hf1⟩ := roadsSt_extends bundle st
  obtain ⟨hex2, hf2⟩ := buildingsSt_extends bundle (roadsSt bundle st).1
  have hn1 : st.length ≤ (roadsSt bundle st).1.length := stExtends_length hex1
  have hn2 : st.length ≤ (buildingsSt bundle (roadsSt bundle st).1).1.length :=
    le_trans hn1 (stExtends_length hex2)
  obtain ⟨hex3, hf3a, hf3p⟩ := poisSectionSt_extends st.length bundle wa wp
    (buildingsSt bundle (roadsSt bundle st).1).1 hn2
  have hn3 : st.length
      ≤ (poisSectionSt bundle wa wp (buildingsSt bundle (roadsSt bundle st).1).1).1.length :=
    le_trans hn2 (stExtends_length hex3)
  obtain ⟨hex4, hf4⟩ := waterwaysSt_extends bundle
    (poisSectionSt bundle wa wp (buildingsSt bundle (roadsSt bundle st).1).1).1
  have hn4 : st.length ≤ (waterwaysSt bundle
      (poisSectionSt bundle wa wp (buildingsSt bundle (roadsSt bundle st).1).1).1).1.length :=
    le_trans hn3 (stExtends_length hex4)
  obtain ⟨hex5, hf5⟩ := landuseSt_extends st.length bundle
    (waterwaysSt bundle
      (poisSectionSt bundle wa wp (buildingsSt bundle (roadsSt bundle st).1).1).1).1 hn4
  have hexAll : StExtends st (landuseSt bundle
      (waterwaysSt bundle
        (poisSectionSt bundle wa wp (buildingsSt bundle (roadsSt bundle st).1).1).1).1).1 :=
    stExtends_trans hex1 (stExtends_trans hex2 (stExtends_trans hex3
      (stExtends_trans hex4 hex5)))
  refine ⟨stExtends_take hexAll, stExtends_length hexAll, ?_⟩
  unfold refsFresh
  simp only [Bool.and_eq_true]
  refine ⟨⟨⟨⟨⟨?_, ?_⟩, ?_⟩, ?_⟩, ?_⟩, ?_⟩
  · exact optAll_of_mem hf1
  · exact optAll_of_mem (fun r hr => le_trans hn1 (hf2 r hr))
  · exact listAll_of_mem hf3a
  · exact listAll_of_mem hf3p
  · exact optAll_of_mem (fun r hr => le_trans hn3 (hf4 r hr))
  · exact listAll_of_mem hf5

end OSMMap
